import Mathlib

/-!
Verification development for the paper-index citation validation pipeline.

The TypeScript sources are shallowly embedded: document text is a list of
characters, the regex-driven scans of src/parsers/citationParser.ts are
modelled as explicit index scans with the same match semantics, asynchronous
orchestration (src/validation/validator.ts) is modelled by explicit state
passing over a TTL cache, and the external collaborators (paper-index CLI,
Bedrock oracle, keyword extractor) are parameters of the model, as the spec
itself treats them (opaque adapters).  JavaScript numbers are modelled by Rat
(the arithmetic performed by the code - rate products, confidence clamping -
is exact on the values involved), and vscode position ranges by character
offsets (document.positionAt is order-isomorphic to offsets).
-/

attribute [local semireducible] Rat.add Rat.mul Rat.inv Rat.sub Rat.ofScientific

set_option maxRecDepth 1000000

namespace PaperIndex

/-! ### Generic first-index scan

Shared model of left-to-right regex scanning: the least position at or after
a start index satisfying a decidable position predicate.  Fuel-driven
structural recursion (so that closed statements evaluate inside the kernel);
the wrapper supplies exactly enough fuel. -/

def firstPosFromAux (P : Nat → Bool) (len : Nat) : Nat → Nat → Option Nat
  | _, 0 => none
  | k, fuel + 1 =>
    if k < len then
      if P k then some k else firstPosFromAux P len (k + 1) fuel
    else none

def firstPosFrom (P : Nat → Bool) (len k : Nat) : Option Nat :=
  firstPosFromAux P len k (len - k + 1)

/-- First index at or after k whose character satisfies p. -/
def firstIdxFrom (p : Char → Bool) (s : List Char) (k : Nat) : Option Nat :=
  firstPosFrom (fun i => match s[i]? with | some c => p c | none => false) s.length k

/-! ### Citation parser (src/parsers/citationParser.ts) -/

/-- Character class of the regex group ([a-zA-Z]), the first key character. -/
def isKeyStart (c : Char) : Bool := c.isAlpha

/-- Character class [a-zA-Z0-9_:-] of the remaining key characters. -/
def isKeyChar (c : Char) : Bool := c.isAlphanum || c == '_' || c == ':' || c == '-'

/-- A citation key token of CITATION_KEY_PATTERN starts at position p:
an at sign immediately followed by a letter. -/
def isTokenAt (s : List Char) (p : Nat) : Bool :=
  s[p]? == some '@' &&
    (match s[p + 1]? with | some c => isKeyStart c | none => false)

/-- End of the maximal run of key characters starting at k (the greedy
[a-zA-Z0-9_:-]* part of the key pattern). -/
def keyEnd (s : List Char) (k : Nat) : Nat :=
  (firstIdxFrom (fun c => !isKeyChar c) s k).getD s.length

/-- Leftmost key token at or after k. -/
def findTokenFrom (s : List Char) (k : Nat) : Option Nat :=
  firstPosFrom (fun p => isTokenAt s p) s.length k

/-- The exec loop of CITATION_KEY_PATTERN: successive non-overlapping key
token matches, as (token start, token end) pairs.  The key text of a match
(p, e) is s[p+1..e), the full match is s[p..e).  Fuel-driven; the wrapper
supplies enough fuel for the whole text. -/
def tokenScanAux (s : List Char) : Nat → Nat → List (Nat × Nat)
  | _, 0 => []
  | k, fuel + 1 =>
    match findTokenFrom s k with
    | none => []
    | some p =>
      let e := keyEnd s (p + 2)
      (p, e) :: tokenScanAux s e fuel

def tokenScan (s : List Char) : List (Nat × Nat) :=
  tokenScanAux s 0 (s.length + 1)

/-- Does the open interval (i, j) contain an at sign immediately followed by
a letter (the @[a-zA-Z] core of BRACKET_CITATION_PATTERN's interior)? -/
def hasKeyTokenBetween (s : List Char) (i j : Nat) : Bool :=
  (List.range j).any fun p =>
    i < p && p + 1 < j && s[p]? == some '@' &&
      (match s[p + 1]? with | some c => isKeyStart c | none => false)

/-- Attempt of BRACKET_CITATION_PATTERN at index i: the pattern
matches at i exactly when s[i] is an opening bracket, a closing bracket
exists after it, and the content before the first closing bracket contains
an at sign followed by a letter (the [^\]]* classes cannot cross a closing
bracket, so the match always ends at the first one).  Returns the index of
that closing bracket. -/
def bracketMatchAt (s : List Char) (i : Nat) : Option Nat :=
  if s[i]? == some '[' then
    match firstIdxFrom (fun c => c == ']') s (i + 1) with
    | some j => if hasKeyTokenBetween s i j then some j else none
    | none => none
  else none

/-- Leftmost bracket match starting at or after a given index. -/
def findBracketFrom (s : List Char) (start : Nat) : Option (Nat × Nat) :=
  match firstPosFrom (fun i => (bracketMatchAt s i).isSome) s.length start with
  | some i =>
    match bracketMatchAt s i with
    | some j => some (i, j)
    | none => none
  | none => none

/-- The exec loop of BRACKET_CITATION_PATTERN: successive non-overlapping
bracket matches; after a match ending at j the scan resumes at j + 1
(lastIndex past the whole match). -/
def bracketMatchesAux (s : List Char) : Nat → Nat → List (Nat × Nat)
  | _, 0 => []
  | start, fuel + 1 =>
    match findBracketFrom s start with
    | none => []
    | some (i, j) => (i, j) :: bracketMatchesAux s (j + 1) fuel

def bracketMatches (s : List Char) : List (Nat × Nat) :=
  bracketMatchesAux s 0 (s.length + 1)

/-! #### Page reference extraction (PAGE_REF_PATTERN) -/

/-- Lower-cased character comparison, for the case-insensitive flag. -/
def lc (c : Char) : Char := c.toLower

/-- End of the maximal digit run starting at k. -/
def digitRunEnd (s : List Char) (k : Nat) : Nat :=
  (firstIdxFrom (fun c => !c.isDigit) s k).getD s.length

/-- End of the maximal whitespace run starting at k. -/
def wsRunEnd (s : List Char) (k : Nat) : Nat :=
  (firstIdxFrom (fun c => !c.isWhitespace) s k).getD s.length

/-- Match of the alternation (?:pp?\.|pages?) at position k (case
insensitive), returning the position after it.  The first alternative is
tried with its greedy optional second p, then the second alternative with
its greedy optional s. -/
def pageRefWordAt (s : List Char) (k : Nat) : Option Nat :=
  if (s[k]?.map lc) == some 'p' then
    if (s[k+1]?.map lc) == some 'p' && s[k+2]? == some '.' then some (k+3)
    else if s[k+1]? == some '.' then some (k+2)
    else if (s[k+1]?.map lc) == some 'a' && (s[k+2]?.map lc) == some 'g' &&
        (s[k+3]?.map lc) == some 'e' then
      if (s[k+4]?.map lc) == some 's' then some (k+5) else some (k+4)
    else none
  else none

/-- Match of the whole page-reference pattern at position k, returning the
capture group (number or number range) as characters.  After the word and
optional whitespace there must be at least one digit; the optional
range part requires a dash (hyphen or en dash) and more digits. -/
def pageRefAt (s : List Char) (k : Nat) : Option (List Char) :=
  match pageRefWordAt s k with
  | none => none
  | some w =>
    let d0 := wsRunEnd s w
    let d1 := digitRunEnd s d0
    if d0 < d1 then
      let r0 := wsRunEnd s d1
      let cap :=
        if s[r0]? == some '-' || s[r0]? == some '–' then
          let r1 := wsRunEnd s (r0 + 1)
          let r2 := digitRunEnd s r1
          if r1 < r2 then r2 else d1
        else d1
      some ((s.drop d0).take (cap - d0))
    else none

/-- First match of PAGE_REF_PATTERN in the text (regex exec: leftmost
successful start position wins). -/
def extractPageRef (s : List Char) : Option String :=
  match firstPosFrom (fun k => (pageRefAt s k).isSome) s.length 0 with
  | some k => (pageRefAt s k).map fun cs => String.mk cs
  | none => none

/-! #### isCitationInsideBracket and parseCitations -/

/-- The forward half of isCitationInsideBracket: from pos, the first bracket
character decides - a closing bracket means inside, an opening bracket (or
no bracket at all) means not. -/
def forwardCloses (s : List Char) (pos : Nat) : Bool :=
  match firstIdxFrom (fun c => c == '[' || c == ']') s pos with
  | some j => s[j]? == some ']'
  | none => false

/-- The backward loop of isCitationInsideBracket: i is one past the index
examined next (so the loop runs over i-1, i-2, ..., 0), depth counts
unmatched closing brackets seen so far. -/
def insideBracketAux (s : List Char) (pos : Nat) : Nat → Nat → Bool
  | 0, _ => false
  | i + 1, depth =>
    if s[i]? == some ']' then insideBracketAux s pos i (depth + 1)
    else if s[i]? == some '[' then
      if depth == 0 then forwardCloses s pos
      else insideBracketAux s pos i (depth - 1)
    else insideBracketAux s pos i depth

def isCitationInsideBracket (s : List Char) (pos : Nat) : Bool :=
  insideBracketAux s pos pos 0

/-- Citation record (src/types/index.ts).  The vscode range is modelled by
half-open character offsets start/stop. -/
structure Citation where
  key : String
  fullText : String
  start : Nat
  stop : Nat
  pageRef : Option String := none
  type : String
deriving DecidableEq, Repr

/-- The capture group of a key token match at p: the letter at p + 1 and
the following maximal run of key characters. -/
def keyAt (s : List Char) (p : Nat) : String :=
  String.mk ((s.drop (p + 1)).take (keyEnd s (p + 2) - (p + 1)))

/-- Inner content (capture group 1) of a bracket match spanning i..j. -/
def bracketInner (s : List Char) (i j : Nat) : List Char :=
  (s.drop (i + 1)).take (j - (i + 1))

/-- The first pass of parseCitations: for every bracket match, one citation
of type bracket per key token of the inner content, all sharing the bracket
range and full text. -/
def bracketCitations (s : List Char) : List Citation :=
  (bracketMatches s).flatMap fun m =>
    (tokenScan (bracketInner s m.1 m.2)).map fun t =>
      { key := keyAt (bracketInner s m.1 m.2) t.1
        fullText := String.mk ((s.drop m.1).take (m.2 + 1 - m.1))
        start := m.1
        stop := m.2 + 1
        pageRef := extractPageRef (bracketInner s m.1 m.2)
        type := "bracket" }

/-- The second pass of parseCitations: every key token of the whole text not
inside a bracket (per isCitationInsideBracket) becomes an inline citation. -/
def inlineCitations (s : List Char) : List Citation :=
  (tokenScan s).filterMap fun t =>
    if isCitationInsideBracket s t.1 then none
    else some
      { key := keyAt s t.1
        fullText := String.mk ((s.drop t.1).take (t.2 - t.1))
        start := t.1
        stop := t.2
        pageRef := none
        type := "inline" }

/-- parseCitations: bracket pass results followed by inline pass results. -/
def parseCitations (s : List Char) : List Citation :=
  bracketCitations s ++ inlineCitations s

/-! ### hashText (duplicated helper in validator.ts and paperIndexService.ts)

JavaScript 32-bit signed arithmetic: hash << 5 and hash & hash both coerce
to int32; character codes are UTF-16 units (equal to code points on the
basic plane, which is all the repository's inputs use). -/

def toInt32 (n : Int) : Int := (n + 2 ^ 31) % 2 ^ 32 - 2 ^ 31

def hashStep (h : Int) (c : Nat) : Int := toInt32 (toInt32 (h * 32) - h + c)

def base36DigitChar (n : Nat) : Char :=
  if n < 10 then Char.ofNat (48 + n) else Char.ofNat (87 + n)

def natToBase36Aux : Nat → Nat → List Char → List Char
  | 0, n, acc => base36DigitChar n :: acc
  | fuel + 1, n, acc =>
    if n < 36 then base36DigitChar n :: acc
    else natToBase36Aux fuel (n / 36) (base36DigitChar (n % 36) :: acc)

/-- Number.prototype.toString(36) for the int32 hash value. -/
def intToBase36 (n : Int) : String :=
  if n < 0 then "-" ++ String.mk (natToBase36Aux n.natAbs n.natAbs [])
  else String.mk (natToBase36Aux n.toNat n.toNat [])

def hashText (s : String) : String :=
  intToBase36 (s.data.foldl (fun h c => hashStep h c.toNat) 0)

/-! ### CacheService (src/services/cacheService.ts)

The shared TTL map, modelled per stored value type (the TypeScript map is
untyped and read back through casts; the key prefixes used by the services
keep the typed views disjoint).  get returns the possibly-pruned cache,
since an expired entry is deleted on read. -/

structure CacheEntry (α : Type) where
  value : α
  expiresAt : Nat
deriving DecidableEq, Repr

structure CacheService (α : Type) where
  entries : List (String × CacheEntry α)
  ttlMs : Nat
deriving DecidableEq, Repr

def CacheService.find? (c : CacheService α) (key : String) : Option (CacheEntry α) :=
  (c.entries.find? (fun e => e.1 == key)).map Prod.snd

def CacheService.get (c : CacheService α) (now : Nat) (key : String) :
    Option α × CacheService α :=
  match c.find? key with
  | none => (none, c)
  | some entry =>
    if now > entry.expiresAt then
      (none, { c with entries := c.entries.filter (fun e => e.1 != key) })
    else (some entry.value, c)

def CacheService.set (c : CacheService α) (now : Nat) (key : String) (v : α) :
    CacheService α :=
  { c with entries := (key, ⟨v, now + c.ttlMs⟩) :: c.entries.filter (fun e => e.1 != key) }

/-! ### Fragments and the fragment aggregator

The combine-and-deduplicate block of Validator.validateCitation (and the
identical logic of PaperIndexService.queryEntryWithKeywords): concatenate,
keep the first fragment seen for each line_start, sort ascending by
line_start. -/

structure Fragment where
  line_start : Nat
  line_end : Nat
  lines : List String := []
  matched_line_numbers : List Nat := []
deriving DecidableEq, Repr

def dedupByLineStart (seen : List Nat) : List Fragment → List Fragment
  | [] => []
  | f :: fs =>
    if seen.contains f.line_start then dedupByLineStart seen fs
    else f :: dedupByLineStart (f.line_start :: seen) fs

def combineFragments (keywordFragments semanticFragments : List Fragment) :
    List Fragment :=
  List.insertionSort (fun a b => a.line_start ≤ b.line_start)
    (dedupByLineStart [] (keywordFragments ++ semanticFragments))

/-! ### Cost model (calculateCost and MODEL_PRICING in validator.ts)

Rates are per million tokens; token counts are naturals and the dollar
arithmetic is exact on Rat. -/

structure TokenUsage where
  inputTokens : Nat
  outputTokens : Nat
deriving DecidableEq, Repr

/-- String.prototype.includes: contiguous substring containment. -/
def strContains (s pat : String) : Bool := decide (pat.toList <:+: s.toList)

/-- String.prototype.toLowerCase, character by character. -/
def strToLower (s : String) : String := String.mk (s.data.map Char.toLower)

def MODEL_PRICING : List (String × Rat × Rat) :=
  [("claude-opus", 5, 25), ("anthropic.claude-opus", 5, 25),
   ("claude-sonnet", 3, 15), ("anthropic.claude-sonnet", 3, 15),
   ("claude-haiku", 1, 5), ("anthropic.claude-haiku", 1, 5)]

/-- The for-of loop over Object.entries(MODEL_PRICING) with break on the
first key contained in the lower-cased model id; Sonnet rates by default. -/
def selectPricingAux (modelIdLower : String) : List (String × Rat × Rat) → Rat × Rat
  | [] => (3, 15)
  | (key, value) :: rest =>
    if strContains modelIdLower key then value else selectPricingAux modelIdLower rest

def calculateCost (tokenUsage : TokenUsage) (modelId : String) : Rat :=
  let pricing := selectPricingAux (strToLower modelId) MODEL_PRICING
  (tokenUsage.inputTokens : Rat) / 1000000 * pricing.1 +
    (tokenUsage.outputTokens : Rat) / 1000000 * pricing.2

/-! ### JSON platform model

JSON.parse is a platform function; it is modelled by an explicit JSON value
type and a recursive-descent parser (fuel-driven).  Number literals are read
exactly into Rat. -/

inductive Json where
  | null
  | bool (b : Bool)
  | num (q : Rat)
  | str (s : String)
  | arr (elems : List Json)
  | obj (fields : List (String × Json))

instance : Inhabited Json := ⟨Json.null⟩

def isJsonWs (c : Char) : Bool := c == ' ' || c == '\t' || c == '\n' || c == '\r'

def skipWs (cs : List Char) : List Char := cs.dropWhile isJsonWs

def hexVal (c : Char) : Option Nat :=
  if c.isDigit then some (c.toNat - 48)
  else if 'a' ≤ c && c ≤ 'f' then some (c.toNat - 87)
  else if 'A' ≤ c && c ≤ 'F' then some (c.toNat - 55)
  else none

def parseStringAux : List Char → List Char → Option (String × List Char)
  | _, [] => none
  | acc, '"' :: rest => some (String.mk acc.reverse, rest)
  | acc, '\\' :: '"' :: rest => parseStringAux ('"' :: acc) rest
  | acc, '\\' :: '\\' :: rest => parseStringAux ('\\' :: acc) rest
  | acc, '\\' :: '/' :: rest => parseStringAux ('/' :: acc) rest
  | acc, '\\' :: 'b' :: rest => parseStringAux ('\x08' :: acc) rest
  | acc, '\\' :: 'f' :: rest => parseStringAux ('\x0c' :: acc) rest
  | acc, '\\' :: 'n' :: rest => parseStringAux ('\n' :: acc) rest
  | acc, '\\' :: 'r' :: rest => parseStringAux ('\r' :: acc) rest
  | acc, '\\' :: 't' :: rest => parseStringAux ('\t' :: acc) rest
  | acc, '\\' :: 'u' :: h1 :: h2 :: h3 :: h4 :: rest =>
    match hexVal h1, hexVal h2, hexVal h3, hexVal h4 with
    | some a, some b, some c, some d =>
      parseStringAux (Char.ofNat (((a * 16 + b) * 16 + c) * 16 + d) :: acc) rest
    | _, _, _, _ => none
  | _, '\\' :: _ => none
  | acc, c :: rest => parseStringAux (c :: acc) rest

def digitsToNat (ds : List Char) : Nat :=
  ds.foldl (fun a c => a * 10 + (c.toNat - 48)) 0

/-- Reads a nonempty digit run; yields its value, its length and the rest. -/
def readDigits (cs : List Char) : Option (Nat × Nat × List Char) :=
  let ds := cs.takeWhile Char.isDigit
  if ds.isEmpty then none
  else some (digitsToNat ds, ds.length, cs.dropWhile Char.isDigit)

def parseNumber (cs : List Char) : Option (Rat × List Char) :=
  let signed : Bool × List Char :=
    match cs with
    | '-' :: r => (true, r)
    | _ => (false, cs)
  match readDigits signed.2 with
  | none => none
  | some (ip, _, cs1) =>
    let frac : Option (Nat × Nat × List Char) :=
      match cs1 with
      | '.' :: r => readDigits r
      | _ => some (0, 0, cs1)
    match frac with
    | none => none
    | some (fp, fk, cs2) =>
      let expPart : Option (Int × List Char) :=
        match cs2 with
        | 'e' :: '+' :: r | 'E' :: '+' :: r =>
          (readDigits r).map fun d => ((d.1 : Int), d.2.2)
        | 'e' :: '-' :: r | 'E' :: '-' :: r =>
          (readDigits r).map fun d => (-(d.1 : Int), d.2.2)
        | 'e' :: r | 'E' :: r =>
          (readDigits r).map fun d => ((d.1 : Int), d.2.2)
        | _ => some (0, cs2)
      match expPart with
      | none => none
      | some (ex, cs3) =>
        let mag : Rat := ((ip : Rat) + (fp : Rat) / (10 : Rat) ^ fk) * (10 : Rat) ^ ex
        some (if signed.1 then -mag else mag, cs3)

mutual

def parseValueAux : Nat → List Char → Except String (Json × List Char)
  | 0, _ => .error "SyntaxError: recursion limit"
  | fuel + 1, cs =>
    match skipWs cs with
    | [] => .error "SyntaxError: unexpected end of JSON input"
    | '{' :: rest =>
      (match skipWs rest with
       | '}' :: r2 => .ok (.obj [], r2)
       | r2 => parseMembersAux fuel r2 [])
    | '[' :: rest =>
      (match skipWs rest with
       | ']' :: r2 => .ok (.arr [], r2)
       | r2 => parseElemsAux fuel r2 [])
    | '"' :: rest =>
      (match parseStringAux [] rest with
       | some (s, r) => .ok (.str s, r)
       | none => .error "SyntaxError: bad string")
    | 't' :: 'r' :: 'u' :: 'e' :: r => .ok (.bool true, r)
    | 'f' :: 'a' :: 'l' :: 's' :: 'e' :: r => .ok (.bool false, r)
    | 'n' :: 'u' :: 'l' :: 'l' :: r => .ok (.null, r)
    | cs1 =>
      match parseNumber cs1 with
      | some (q, r) => .ok (.num q, r)
      | none => .error "SyntaxError: unexpected token"

def parseMembersAux : Nat → List Char → List (String × Json) →
    Except String (Json × List Char)
  | 0, _, _ => .error "SyntaxError: recursion limit"
  | fuel + 1, cs, acc =>
    match skipWs cs with
    | '"' :: rest =>
      (match parseStringAux [] rest with
       | none => .error "SyntaxError: bad string"
       | some (k, r1) =>
         match skipWs r1 with
         | ':' :: r2 =>
           (match parseValueAux fuel r2 with
            | .error e => .error e
            | .ok (v, r3) =>
              match skipWs r3 with
              | ',' :: r4 => parseMembersAux fuel r4 (acc ++ [(k, v)])
              | '}' :: r4 => .ok (.obj (acc ++ [(k, v)]), r4)
              | _ => .error "SyntaxError: expected comma or closing brace")
         | _ => .error "SyntaxError: expected colon")
    | _ => .error "SyntaxError: expected property name"

def parseElemsAux : Nat → List Char → List Json → Except String (Json × List Char)
  | 0, _, _ => .error "SyntaxError: recursion limit"
  | fuel + 1, cs, acc =>
    match parseValueAux fuel cs with
    | .error e => .error e
    | .ok (v, r1) =>
      match skipWs r1 with
      | ',' :: r2 => parseElemsAux fuel r2 (acc ++ [v])
      | ']' :: r2 => .ok (.arr (acc ++ [v]), r2)
      | _ => .error "SyntaxError: expected comma or closing bracket"

end

def jsonParse (s : String) : Except String Json :=
  match parseValueAux (2 * s.length + 2) s.toList with
  | .error e => .error e
  | .ok (v, rest) =>
    if (skipWs rest).isEmpty then .ok v
    else .error "SyntaxError: unexpected non-whitespace after JSON"

/-! ### LLM response parsing (parseValidationResponse in promptBuilder.ts) -/

/-- The regex match of /\x7b[\s\S]*\x7d/: the earliest opening brace that
still has a closing brace somewhere after it, greedily extended to the last
closing brace of the whole text. -/
def lastCloseBrace (cs : List Char) (i : Nat) : Option Nat :=
  let j := Nat.findGreatest (fun j => i < j ∧ cs[j]? = some '}') cs.length
  if i < j ∧ cs[j]? = some '}' then some j else none

def matchBraces (cs : List Char) : Option (List Char) :=
  match firstPosFrom (fun i => cs[i]? == some '{') cs.length 0 with
  | none => none
  | some i =>
    match lastCloseBrace cs i with
    | none => none
    | some j => some ((cs.drop i).take (j + 1 - i))

/-- JavaScript truthiness of a JSON value (undefined is handled by the
Option layer; NaN does not arise from JSON.parse). -/
def jsTruthy : Json → Bool
  | .null => false
  | .bool b => b
  | .num q => !(q == 0)
  | .str s => !(s == "")
  | .arr _ => true
  | .obj _ => true

def jsTruthyOpt : Option Json → Bool
  | none => false
  | some j => jsTruthy j

/-- Property read on a JS object: the last duplicate key wins. -/
def lookupField (fields : List (String × Json)) (k : String) : Option Json :=
  ((fields.filter (fun f => f.1 == k)).getLast?).map Prod.snd

def objLookup : Json → String → Option Json
  | .obj fields, k => lookupField fields k
  | _, _ => none

def isNumField : Option Json → Bool
  | some (.num _) => true
  | _ => false

def statusEnum : List String := ["supported", "partial", "not_supported"]

def statusIsEnum : Json → Bool
  | .str st => statusEnum.contains st
  | _ => false

/-- Template-literal coercion used in the invalid-status error message
(approximate for arrays, which the repository never hits there). -/
def jsDisplay : Json → String
  | .str s => s
  | .num q => toString q
  | .bool b => if b then "true" else "false"
  | .null => "null"
  | .arr _ => ""
  | .obj _ => "[object Object]"

def strValOrEmpty : Json → String
  | .str s => s
  | _ => ""

def numValOr0 : Json → Rat
  | .num q => q
  | _ => 0

/-- Output shape of parseValidationResponse.  The explanation and the two
passed-through fields are kept as raw JSON values, exactly as the untyped
cast does at runtime. -/
structure ParsedResponse where
  status : String
  confidence : Rat
  explanation : Json
  supportingQuoteIndices : Option Json := none
  rephrase : Option Json := none

/-- Field validation and result assembly of parseValidationResponse, after
JSON.parse succeeded. -/
def parseResponseObject (parsed : Json) : Except String ParsedResponse :=
  if !jsTruthy ((objLookup parsed "status").getD .null) ||
      !isNumField (objLookup parsed "confidence") ||
      !jsTruthyOpt (objLookup parsed "explanation") then
    .error "Invalid response format: missing required fields"
  else if !statusIsEnum ((objLookup parsed "status").getD .null) then
    .error ("Invalid status value: " ++
      jsDisplay ((objLookup parsed "status").getD .null))
  else
    .ok { status := strValOrEmpty ((objLookup parsed "status").getD .null)
          confidence :=
            max 0 (min 1 (numValOr0 ((objLookup parsed "confidence").getD .null)))
          explanation := (objLookup parsed "explanation").getD .null
          supportingQuoteIndices := objLookup parsed "supportingQuoteIndices"
          rephrase := objLookup parsed "rephrase" }

/-- JSON.parse of the extracted span followed by field validation; the
parse failure is the JSON.parse SyntaxError propagating out. -/
def parseResponseSub (sub : List Char) : Except String ParsedResponse :=
  match jsonParse (String.mk sub) with
  | .error e => .error e
  | .ok parsed => parseResponseObject parsed

def parseValidationResponse (response : String) : Except String ParsedResponse :=
  match matchBraces response.toList with
  | none => .error "No JSON found in response"
  | some sub => parseResponseSub sub

/-! ### Evidence source adapter (src/services/paperIndexService.ts)

Only the entry lookup is modelled in full (it carries the claimed probing
logic); the other lookups reach the validator through its environment.  The
external CLI is a deterministic function from argument vectors to either
stdout text (exit code zero) or a failure.  The unchecked cast
JSON.parse(result) as Paper is the identity at runtime, so the cached and
returned entry value is the parsed JSON itself. -/

structure CorpusEnv where
  exec : List String → Except String String

/-- Entry types tried in order (ENTRY_TYPES). -/
def ENTRY_TYPES : List String := ["paper", "book", "media"]

def showCmd (entryType entryId : String) : List String :=
  [entryType, "show", entryId, "--format", "json"]

/-- The category probe loop of getPaper.  Returns the found entry, the
updated cache and the trace of CLI commands executed, in order. -/
def getPaperAux (env : CorpusEnv) (now : Nat) (entryId : String) :
    List String → CacheService Json →
    Option Json × CacheService Json × List (List String)
  | [], cache => (none, cache, [])
  | entryType :: rest, cache =>
    let cmd := showCmd entryType entryId
    match env.exec cmd with
    | .error _ =>
      let r := getPaperAux env now entryId rest cache
      (r.1, r.2.1, cmd :: r.2.2)
    | .ok out =>
      match jsonParse out with
      | .error _ =>
        let r := getPaperAux env now entryId rest cache
        (r.1, r.2.1, cmd :: r.2.2)
      | .ok entry =>
        (some entry, cache.set now ("entry:" ++ entryId) entry, [cmd])

/-- PaperIndexService.getPaper: read-through cache in front of the ordered
category probe; a cache hit executes no CLI command. -/
def getPaper (env : CorpusEnv) (now : Nat) (cache : CacheService Json)
    (entryId : String) : Option Json × CacheService Json × List (List String) :=
  match cache.get now ("entry:" ++ entryId) with
  | (some v, c1) => (some v, c1, [])
  | (none, c1) => getPaperAux env now entryId ENTRY_TYPES c1

/-! ### Data model of the validator (src/types/index.ts)

Fields that only feed the prompt renderer keep their shapes; presentation
fields of the source Paragraph (its citations array) are projected away. -/

structure Quote where
  text : String
  page : Option Nat := none
deriving DecidableEq, Repr

structure Paper where
  id : String := ""
  title : String := ""
  author : String := ""
  year : Option Nat := none
  abstract : Option String := none
  journal : Option String := none
  doi : Option String := none
  peer_reviewed : Option Bool := none
  question : Option String := none
  method : Option String := none
  results : Option String := none
  interpretation : Option String := none
  claims : Option String := none
  entryType : Option String := none
deriving DecidableEq, Repr

structure Paragraph where
  text : String
  start : Nat
  stop : Nat
deriving DecidableEq, Repr

structure PaperIndexResult where
  paper : Option Paper := none
  quotes : Option (List Quote) := none
  error : Option String := none
deriving DecidableEq, Repr

structure ExtractedKeywords where
  english : List String := []
  dutch : List String := []
deriving DecidableEq, Repr

structure ValidationRequest where
  paragraphText : String
  citationKey : String
  paperTitle : String
  paperAbstract : Option String := none
  quotes : List Quote := []
  fileContent : Option String := none
  paperAuthor : String := ""
  paperYear : Option Nat := none
  paperDoi : Option String := none
  paperJournal : Option String := none
  paperPeerReviewed : Option Bool := none
  paperClaims : Option String := none
  paperMethod : Option String := none
  paperResults : Option String := none
  paperQuestion : Option String := none
  paperInterpretation : Option String := none
  paperEntryType : Option String := none
  keywordFragments : List Fragment := []
deriving DecidableEq, Repr

structure LLMValidationResponse where
  status : String
  confidence : Rat
  explanation : String
  supportingQuoteIndices : Option (List Int) := none
  rephrase : Option String := none
  tokenUsage : Option TokenUsage := none
deriving DecidableEq, Repr

structure ValidationResult where
  citation : Citation
  status : String
  confidence : Rat
  explanation : String
  supportingQuotes : Option (List Quote) := none
  paragraphText : String
  paper : Option Paper := none
  modelId : Option String := none
  rephrase : Option String := none
  tokenUsage : Option TokenUsage := none
  costUsd : Option Rat := none
deriving DecidableEq, Repr

/-! ### Validator orchestrator (validator.ts)

The collaborators reached through singletons - getPaperWithQuotes, the
keyword extractor, the fragment searches, and the Bedrock oracle adapter
(buildValidationPrompt + invokeModel + parseValidationResponse, whose
throws surface here as an error value) - are deterministic functions
bundled in an environment.  The shared mutable cache and the count of
oracle invocations are explicit state.  The cooperative event loop is
linearized in input order; progress reporting (pure UI) is dropped. -/

structure ValidatorEnv where
  getPaperWithQuotes : String → PaperIndexResult
  extractKeywords : String → ExtractedKeywords
  getFileContent : String → Option String
  queryEntryWithKeywords : String → List String → List Fragment
  semanticQueryEntry : String → String → List Fragment
  oracle : ValidationRequest → Except String LLMValidationResponse
  modelId : String

structure VState where
  cache : CacheService ValidationResult
  oracleCalls : Nat := 0
deriving DecidableEq, Repr

/-- Truthiness of the error field of a PaperIndexResult (the if (error ||
!paper) test): an empty string is falsy. -/
def jsTruthyStr : Option String → Bool
  | some s => !(s == "")
  | none => false

def validationCacheKey (citation : Citation) (paragraph : Paragraph) : String :=
  "validation:" ++ citation.key ++ ":" ++ hashText paragraph.text

/-- quotes?.[idx - 1]: a 1-based index into the quote list; negative or
out-of-range indices yield nothing. -/
def quoteAtIndex (quotes : Option (List Quote)) (idx : Int) : Option Quote :=
  match quotes with
  | none => none
  | some qs => if idx - 1 < 0 then none else qs[(idx - 1).toNat]?

def mapSupportingQuotes (quotes : Option (List Quote)) :
    Option (List Int) → Option (List Quote)
  | none => none
  | some idxs => some ((idxs.map (quoteAtIndex quotes)).reduceOption)

/-- The ValidationRequest assembled by validateCitation. -/
def buildRequest (citation : Citation) (paragraph : Paragraph) (paper : Paper)
    (quotes : Option (List Quote)) (fileContent : Option String)
    (combinedFragments : List Fragment) : ValidationRequest :=
  { paragraphText := paragraph.text
    citationKey := citation.key
    paperTitle := paper.title
    paperAbstract := paper.abstract
    quotes := quotes.getD []
    fileContent := fileContent
    paperAuthor := paper.author
    paperYear := paper.year
    paperDoi := paper.doi
    paperJournal := paper.journal
    paperPeerReviewed := paper.peer_reviewed
    paperClaims := paper.claims
    paperMethod := paper.method
    paperResults := paper.results
    paperQuestion := paper.question
    paperInterpretation := paper.interpretation
    paperEntryType := paper.entryType
    keywordFragments := combinedFragments }

/-- The terminal result for a missing or failed entry lookup. -/
def entryMissingResult (citation : Citation) (paragraph : Paragraph)
    (err : Option String) : ValidationResult :=
  { citation := citation
    status := "not_supported"
    confidence := 0
    explanation :=
      if jsTruthyStr err then err.getD ""
      else "Paper not found: " ++ citation.key
    paragraphText := paragraph.text }

/-- The evidence fan-out of validateCitation after a found entry: combined
keywords (English then Dutch), optional full file content (only with a page
reference), keyword fragments (only with nonempty keywords), semantic
fragments (always), aggregated and bundled into the request. -/
def validationRequestOf (env : ValidatorEnv) (citation : Citation)
    (paragraph : Paragraph) (paper : Paper) : ValidationRequest :=
  let paperResult := env.getPaperWithQuotes citation.key
  let extractedKeywords := env.extractKeywords paragraph.text
  let allKeywords := extractedKeywords.english ++ extractedKeywords.dutch
  let fileContent :=
    if citation.pageRef.isSome then env.getFileContent citation.key else none
  let keywordFragments :=
    if allKeywords.isEmpty then []
    else env.queryEntryWithKeywords citation.key allKeywords
  let semanticFragments := env.semanticQueryEntry citation.key paragraph.text
  buildRequest citation paragraph paper paperResult.quotes fileContent
    (combineFragments keywordFragments semanticFragments)

/-- The ValidationResult assembled from a successful oracle response. -/
def successResult (env : ValidatorEnv) (citation : Citation)
    (paragraph : Paragraph) (paper : Paper)
    (llmResponse : LLMValidationResponse) : ValidationResult :=
  { citation := citation
    status := llmResponse.status
    confidence := llmResponse.confidence
    explanation := llmResponse.explanation
    supportingQuotes :=
      mapSupportingQuotes (env.getPaperWithQuotes citation.key).quotes
        llmResponse.supportingQuoteIndices
    paragraphText := paragraph.text
    paper := some paper
    modelId := some env.modelId
    rephrase := llmResponse.rephrase
    tokenUsage := llmResponse.tokenUsage
    costUsd := llmResponse.tokenUsage.map fun u => calculateCost u env.modelId }

/-- The terminal result of the catch block around the oracle call. -/
def oracleFailureResult (env : ValidatorEnv) (citation : Citation)
    (paragraph : Paragraph) (paper : Paper) (msg : String) : ValidationResult :=
  { citation := citation
    status := "not_supported"
    confidence := 0
    explanation := "Validation failed: " ++ msg
    paragraphText := paragraph.text
    paper := some paper
    modelId := some env.modelId }

/-- Validator.validateCitation. -/
def validateCitation (env : ValidatorEnv) (now : Nat) (citation : Citation)
    (paragraph : Paragraph) (st : VState) : ValidationResult × VState :=
  let cacheKey := validationCacheKey citation paragraph
  match st.cache.get now cacheKey with
  | (some cached, c1) => (cached, { st with cache := c1 })
  | (none, c1) =>
    let st1 : VState := { st with cache := c1 }
    let paperResult := env.getPaperWithQuotes citation.key
    match paperResult.paper with
    | none => (entryMissingResult citation paragraph paperResult.error, st1)
    | some paper =>
      if jsTruthyStr paperResult.error then
        (entryMissingResult citation paragraph paperResult.error, st1)
      else
        let request := validationRequestOf env citation paragraph paper
        let st2 : VState := { st1 with oracleCalls := st1.oracleCalls + 1 }
        match env.oracle request with
        | .ok llmResponse =>
          let result := successResult env citation paragraph paper llmResponse
          (result, { st2 with cache := st2.cache.set now cacheKey result })
        | .error msg =>
          (oracleFailureResult env citation paragraph paper msg, st2)

/-- vscode Range.contains applied to a citation range, over offsets. -/
def paragraphContains (p : Paragraph) (c : Citation) : Bool :=
  p.start ≤ c.start && c.stop ≤ p.stop

/-- The resolved result for a citation with no containing paragraph. -/
def orphanResult (citation : Citation) : ValidationResult :=
  { citation := citation
    status := "not_supported"
    confidence := 0
    explanation := "Could not determine paragraph context"
    paragraphText := "" }

/-- The per-citation task body shared by validateDocument and the batched
variant (the two functions duplicate this block verbatim). -/
def validateWithContext (env : ValidatorEnv) (now : Nat)
    (paragraphs : List Paragraph) (citation : Citation) (st : VState) :
    ValidationResult × VState :=
  match paragraphs.find? (fun p => paragraphContains p citation) with
  | none => (orphanResult citation, st)
  | some paragraph => validateCitation env now citation paragraph st

/-- Validator.validateDocument: one task per citation in input order,
joined by Promise.all (which keeps input order). -/
def validateDocument (env : ValidatorEnv) (now : Nat) :
    List Citation → List Paragraph → VState → List ValidationResult × VState
  | [], _, st => ([], st)
  | c :: rest, paragraphs, st =>
    let r := validateWithContext env now paragraphs c st
    let rs := validateDocument env now rest paragraphs r.2
    (r.1 :: rs.1, rs.2)

/-- results[batchStartIndex + batchIndex] = result, for each batch result
in order. -/
def writeResults : List (Option ValidationResult) → Nat → List ValidationResult →
    List (Option ValidationResult)
  | arr, _, [] => arr
  | arr, idx, r :: rs => writeResults (arr.set idx (some r)) (idx + 1) rs

/-- The batch loop of validateDocumentWithConcurrencyLimit: slice off up to
limit citations, run the batch (its body is the shared per-citation task),
write the results at their input indices, continue past the batch.  Fuel
bounds the loop; any positive limit terminates within it (with limit zero
the JavaScript loop itself never terminates). -/
def vdclAux (env : ValidatorEnv) (now : Nat) (paragraphs : List Paragraph)
    (limit : Nat) : Nat → List Citation → Nat → List (Option ValidationResult) →
    VState → List (Option ValidationResult) × VState
  | 0, _, _, arr, st => (arr, st)
  | _, [], _, arr, st => (arr, st)
  | fuel + 1, remaining, idx, arr, st =>
    let batch := remaining.take limit
    let r := validateDocument env now batch paragraphs st
    vdclAux env now paragraphs limit fuel (remaining.drop limit) (idx + limit)
      (writeResults arr idx r.1) r.2

/-- Validator.validateDocumentWithConcurrencyLimit, with the pre-sized
result array (new Array(total)) modelled as a list of options. -/
def validateDocumentWithConcurrencyLimit (env : ValidatorEnv) (now : Nat)
    (citations : List Citation) (paragraphs : List Paragraph) (limit : Nat)
    (st : VState) : List (Option ValidationResult) × VState :=
  vdclAux env now paragraphs limit (citations.length + 1) citations 0
    (List.replicate citations.length none) st

/-- The batch decomposition performed by the slice loop (shared with
vdclAux so the claimed batch sizes are about the same slicing). -/
def batchesAux (limit : Nat) : Nat → List α → List (List α)
  | 0, _ => []
  | _, [] => []
  | fuel + 1, remaining => remaining.take limit :: batchesAux limit fuel (remaining.drop limit)

def batchesOf (limit : Nat) (l : List α) : List (List α) :=
  batchesAux limit (l.length + 1) l

/-- Validator.validateCitationKey. -/
def validateCitationKey (env : ValidatorEnv) (now : Nat) (key : String)
    (citations : List Citation) (paragraphs : List Paragraph) (st : VState) :
    List ValidationResult × VState :=
  validateDocument env now (citations.filter (fun c => c.key == key)) paragraphs st

/-! ### Spec-side definition for claim C3

The spec describes extraction as taking the first balanced brace-delimited
JSON substring; this definition follows the spec's words, to be compared
against the matchBraces model of the code's regex. -/

def specBalancedEndAux (cs : List Char) : Nat → Nat → Nat → Option Nat
  | 0, _, _ => none
  | fuel + 1, k, depth =>
    match cs[k]? with
    | none => none
    | some '{' => specBalancedEndAux cs fuel (k + 1) (depth + 1)
    | some '}' =>
      if depth == 1 then some k else specBalancedEndAux cs fuel (k + 1) (depth - 1)
    | some _ => specBalancedEndAux cs fuel (k + 1) depth

def specFirstBalancedBraces (cs : List Char) : Option (List Char) :=
  match firstPosFrom (fun i => cs[i]? == some '{') cs.length 0 with
  | none => none
  | some i =>
    (specBalancedEndAux cs (cs.length + 1) i 0).map fun j =>
      (cs.drop i).take (j + 1 - i)

/-- parseValidationResponse as the specification words it: identical except
that extraction takes the first balanced brace-delimited substring instead
of the code's first-open-brace-to-last-close-brace span.  Kept side by side
with the code's parseValidationResponse to compare the two extraction
semantics. -/
def specParseValidationResponse (response : String) : Except String ParsedResponse :=
  match specFirstBalancedBraces response.toList with
  | none => .error "No JSON found in response"
  | some sub => parseResponseSub sub

/-! ### Concrete sample data

Shared fixtures used by the closed witness and counterexample theorems. -/

def cexDoc : List Char := "[@a [@b]".toList

def cexResponse : String :=
  "\x7b\"status\": \"supported\", \"confidence\": 1, \"explanation\": \"ok\"\x7d \x7b\"x\": 1\x7d"

def resp15 : String := "\x7b\"status\":\"supported\",\"confidence\":1.5,\"explanation\":\"t\"\x7d"

def respNeg3 : String := "\x7b\"status\":\"supported\",\"confidence\":-3,\"explanation\":\"t\"\x7d"

def respMid : String := "\x7b\"status\":\"partial\",\"confidence\":0.6,\"explanation\":\"t\"\x7d"

/-- The JSON value that resp15's object text parses to. -/
def resp15Json : Json :=
  .obj [("status", .str "supported"), ("confidence", .num (3/2)),
        ("explanation", .str "t")]

/-- The parser output for resp15, with the confidence clamped down to 1. -/
def resp15Parsed : ParsedResponse :=
  { status := "supported", confidence := 1, explanation := .str "t" }

def samplePaper : Paper := { title := "Advances in Machine Learning" }

def sampleQuote : Quote :=
  { text := "ML has fundamentally changed how we analyze data.", page := some 15 }

def sampleCitation : Citation :=
  { key := "smith2023", fullText := "[@smith2023]", start := 16, stop := 28,
    type := "bracket" }

def sampleParagraph : Paragraph :=
  { text := "This is a claim [@smith2023].", start := 0, stop := 29 }

/-- A different occurrence of the same citation key: same key, different
range, full text and type. -/
def sampleCitation2 : Citation :=
  { key := "smith2023", fullText := "@smith2023", start := 100, stop := 110,
    type := "inline" }

/-- A paragraph with the same text as sampleParagraph at a different
range: the validation cache key depends only on the text. -/
def sampleParagraph2 : Paragraph :=
  { text := "This is a claim [@smith2023].", start := 90, stop := 119 }

def sampleOkResponse : LLMValidationResponse :=
  { status := "supported", confidence := 17/20, explanation := "well supported" }

def sampleEnvOk : ValidatorEnv :=
  { getPaperWithQuotes := fun _ => { paper := some samplePaper, quotes := some [sampleQuote] }
    extractKeywords := fun _ => {}
    getFileContent := fun _ => none
    queryEntryWithKeywords := fun _ _ => []
    semanticQueryEntry := fun _ _ => []
    oracle := fun _ => .ok sampleOkResponse
    modelId := "global.anthropic.claude-sonnet-4-20250514-v1:0" }

def sampleEnvThrow : ValidatorEnv := { sampleEnvOk with oracle := fun _ => .error "boom" }

def sampleEnvMissing : ValidatorEnv :=
  { sampleEnvOk with
    getPaperWithQuotes := fun key => { error := some ("Paper not found: " ++ key) } }

def emptyState : VState := { cache := { entries := [], ttlMs := 300000 } }

def sampleBookOut : String := "\x7b\"id\": \"k1\", \"title\": \"B\"\x7d"

def sampleCorpusBookOnly : CorpusEnv :=
  { exec := fun args =>
      if args = showCmd "book" "k1" then .ok sampleBookOut
      else .error "CLI command failed with code 1: not found" }

def emptyJsonCache : CacheService Json := { entries := [], ttlMs := 300000 }

def docW : List Char := "x [@a] y".toList

/-- Seven distinct citations inside the sample paragraph, for the
batched-validation scenario. -/
def sampleSeven : List Citation :=
  [{ key := "a", fullText := "@a", start := 0, stop := 2, type := "inline" },
   { key := "b", fullText := "@b", start := 3, stop := 5, type := "inline" },
   { key := "c", fullText := "@c", start := 6, stop := 8, type := "inline" },
   { key := "d", fullText := "@d", start := 9, stop := 11, type := "inline" },
   { key := "e", fullText := "@e", start := 12, stop := 14, type := "inline" },
   { key := "f", fullText := "@f", start := 15, stop := 17, type := "inline" },
   { key := "g", fullText := "@g", start := 18, stop := 20, type := "inline" }]

/-- Confidence projection of a parser outcome. -/
def parsedConfidence (e : Except String ParsedResponse) : Option Rat :=
  match e with
  | .ok v => some v.confidence
  | .error _ => none

/-- Outcome of one category probe: the parsed JSON of a successful CLI
call, if the call succeeded and its stdout parsed. -/
def jsonOkOf (e : Except String String) : Option Json :=
  match e with
  | .ok out => (jsonParse out).toOption
  | .error _ => none

/-!
## Theorems

Helper lemmas first, then one theorem per claim (with closed witnesses and
counterexamples where required).
-/

/-! ### Lemmas about the generic scan -/

theorem firstPosFromAux_eq_some {P : Nat → Bool} {len : Nat} :
    ∀ {fuel k j : Nat}, firstPosFromAux P len k fuel = some j →
      k ≤ j ∧ j < len ∧ P j = true ∧ ∀ m, k ≤ m → m < j → P m = false := by
  intro fuel
  induction fuel with
  | zero => intro k j h; simp [firstPosFromAux] at h
  | succ n ih =>
    intro k j h
    simp only [firstPosFromAux] at h
    by_cases hk : k < len
    · rw [if_pos hk] at h
      cases hPk : P k with
      | true =>
        rw [hPk, if_pos rfl] at h
        cases h
        exact ⟨Nat.le_refl _, hk, hPk, fun m hm1 hm2 => absurd hm1 (by omega)⟩
      | false =>
        rw [hPk] at h
        simp only [Bool.false_eq_true, if_false] at h
        obtain ⟨h1, h2, h3, h4⟩ := ih h
        refine ⟨by omega, h2, h3, fun m hm1 hm2 => ?_⟩
        rcases Nat.eq_or_lt_of_le hm1 with hm | hm
        · exact hm ▸ hPk
        · exact h4 m hm hm2
    · rw [if_neg hk] at h; cases h

theorem firstPosFromAux_eq_none {P : Nat → Bool} {len : Nat} :
    ∀ {fuel k : Nat}, firstPosFromAux P len k fuel = none → len - k < fuel →
      ∀ m, k ≤ m → m < len → P m = false := by
  intro fuel
  induction fuel with
  | zero => omega
  | succ n ih =>
    intro k h hfuel m hm1 hm2
    simp only [firstPosFromAux] at h
    have hk : k < len := by omega
    rw [if_pos hk] at h
    cases hPk : P k with
    | true => rw [hPk, if_pos rfl] at h; cases h
    | false =>
      rw [hPk] at h
      simp only [Bool.false_eq_true, if_false] at h
      rcases Nat.eq_or_lt_of_le hm1 with hm | hm
      · exact hm ▸ hPk
      · exact ih h (by omega) m hm hm2

theorem firstPosFromAux_eq_some_of {P : Nat → Bool} {len : Nat} :
    ∀ {fuel k j : Nat}, k ≤ j → j < len → P j = true →
      (∀ m, k ≤ m → m < j → P m = false) → len - k < fuel →
      firstPosFromAux P len k fuel = some j := by
  intro fuel
  induction fuel with
  | zero => omega
  | succ n ih =>
    intro k j h1 h2 h3 h4 hfuel
    simp only [firstPosFromAux]
    have hk : k < len := by omega
    rw [if_pos hk]
    rcases Nat.eq_or_lt_of_le h1 with hkj | hkj
    · subst hkj; rw [h3, if_pos rfl]
    · have hPk : P k = false := h4 k (Nat.le_refl _) hkj
      rw [hPk]
      simp only [Bool.false_eq_true, if_false]
      exact ih (by omega) h2 h3 (fun m hm1 hm2 => h4 m (by omega) hm2) (by omega)

theorem firstPosFrom_eq_some {P : Nat → Bool} {len k j : Nat}
    (h : firstPosFrom P len k = some j) :
    k ≤ j ∧ j < len ∧ P j = true ∧ ∀ m, k ≤ m → m < j → P m = false :=
  firstPosFromAux_eq_some h

theorem firstPosFrom_eq_none {P : Nat → Bool} {len k : Nat}
    (h : firstPosFrom P len k = none) :
    ∀ m, k ≤ m → m < len → P m = false :=
  firstPosFromAux_eq_none h (by omega)

theorem firstPosFrom_eq_some_of {P : Nat → Bool} {len k j : Nat}
    (h1 : k ≤ j) (h2 : j < len) (h3 : P j = true)
    (h4 : ∀ m, k ≤ m → m < j → P m = false) :
    firstPosFrom P len k = some j :=
  firstPosFromAux_eq_some_of h1 h2 h3 h4 (by omega)

theorem firstPosFrom_exists_le {P : Nat → Bool} {len k q : Nat}
    (h1 : k ≤ q) (h2 : q < len) (h3 : P q = true) :
    ∃ j, firstPosFrom P len k = some j ∧ j ≤ q := by
  cases h : firstPosFrom P len k with
  | none => exact absurd (firstPosFrom_eq_none h q h1 h2) (by simp [h3])
  | some j =>
    refine ⟨j, rfl, ?_⟩
    obtain ⟨-, -, -, h4⟩ := firstPosFrom_eq_some h
    by_contra hq
    exact absurd (h4 q h1 (by omega)) (by simp [h3])

/-! ### Lemmas about the citation parser -/

theorem charPred_eq_true {p : Char → Bool} {s : List Char} {i : Nat} :
    (match s[i]? with | some c => p c | none => false) = true ↔
      ∃ c, s[i]? = some c ∧ p c = true := by
  cases h : s[i]? <;> simp [h]

theorem bracketMatchAt_spec {s : List Char} {i j : Nat}
    (h : bracketMatchAt s i = some j) :
    s[i]? = some '[' ∧ i < j ∧ j < s.length ∧ s[j]? = some ']' ∧
      ∀ m, i < m → m < j → s[m]? ≠ some ']' := by
  unfold bracketMatchAt at h
  cases hb : (s[i]? == some '[') with
  | false => rw [hb] at h; simp at h
  | true =>
    rw [hb] at h
    simp only [if_true] at h
    have hbeq : s[i]? = some '[' := by
      have := hb; simpa [beq_iff_eq] using this
    cases hf : firstIdxFrom (fun c => c == ']') s (i + 1) with
    | none => rw [hf] at h; cases h
    | some j1 =>
      rw [hf] at h
      simp only [] at h
      cases hk : hasKeyTokenBetween s i j1 with
      | false => rw [hk] at h; simp at h
      | true =>
        rw [hk] at h
        simp only [if_true] at h
        cases h
        obtain ⟨h1, h2, h3, h4⟩ := firstPosFrom_eq_some hf
        obtain ⟨c, hc1, hc2⟩ := charPred_eq_true.mp h3
        have hcj : s[j]? = some ']' := by
          have : c = ']' := by simpa [beq_iff_eq] using hc2
          rw [this] at hc1; exact hc1
        refine ⟨hbeq, by omega, h2, hcj, fun m hm1 hm2 => ?_⟩
        intro hmeq
        have := h4 m (by omega) hm2
        rw [hmeq] at this
        simp at this

theorem findBracketFrom_eq_some {s : List Char} {st a b : Nat}
    (h : findBracketFrom s st = some (a, b)) : bracketMatchAt s a = some b := by
  unfold findBracketFrom at h
  cases hf : firstPosFrom (fun i => (bracketMatchAt s i).isSome) s.length st with
  | none => rw [hf] at h; cases h
  | some i =>
    rw [hf] at h
    simp only [] at h
    cases hm : bracketMatchAt s i with
    | none => rw [hm] at h; cases h
    | some j =>
      rw [hm] at h
      cases h
      exact hm

theorem bracketMatchesAux_mem {s : List Char} :
    ∀ {fuel st a b : Nat}, (a, b) ∈ bracketMatchesAux s st fuel →
      bracketMatchAt s a = some b := by
  intro fuel
  induction fuel with
  | zero => intro st a b h; simp [bracketMatchesAux] at h
  | succ n ih =>
    intro st a b h
    simp only [bracketMatchesAux] at h
    cases hf : findBracketFrom s st with
    | none => rw [hf] at h; simp at h
    | some ij =>
      obtain ⟨i, j⟩ := ij
      rw [hf] at h
      rcases List.mem_cons.mp h with heq | hmem
      · cases heq; exact findBracketFrom_eq_some hf
      · exact ih hmem

theorem bracketMatches_mem {s : List Char} {a b : Nat}
    (h : (a, b) ∈ bracketMatches s) : bracketMatchAt s a = some b :=
  bracketMatchesAux_mem h

/-! Forward scan of isCitationInsideBracket. -/

theorem forwardCloses_true {s : List Char} {pos j : Nat}
    (hj : s[j]? = some ']') (hpj : pos ≤ j)
    (hbetween : ∀ m, pos ≤ m → m < j → s[m]? ≠ some '[' ∧ s[m]? ≠ some ']') :
    forwardCloses s pos = true := by
  have hjlen : j < s.length := by
    rcases List.getElem?_eq_some.mp hj with ⟨hlt, _⟩
    exact hlt
  have hfind : firstIdxFrom (fun c => c == '[' || c == ']') s pos = some j := by
    apply firstPosFrom_eq_some_of hpj hjlen
    · rw [hj]; decide
    · intro m hm1 hm2
      obtain ⟨hl, hr⟩ := hbetween m hm1 hm2
      cases hm : s[m]? with
      | none => simp
      | some c =>
        rw [hm] at hl hr
        have hcl : c ≠ '[' := fun hc => hl (by rw [hc])
        have hcr : c ≠ ']' := fun hc => hr (by rw [hc])
        simp [hcl, hcr]
  unfold forwardCloses
  rw [hfind]
  simp only []
  rw [hj]
  decide

/-! Backward scan of isCitationInsideBracket. -/

theorem insideBracketAux_skip {s : List Char} {pos m : Nat} :
    ∀ t d, m < t →
      (∀ u, m < u → u < t → s[u]? ≠ some '[' ∧ s[u]? ≠ some ']') →
      insideBracketAux s pos t d = insideBracketAux s pos (m + 1) d := by
  intro t
  induction t with
  | zero => omega
  | succ t ih =>
    intro d hmt hplain
    rcases Nat.lt_succ_iff_lt_or_eq.mp hmt with hml | hme
    swap
    · rw [hme]
    · obtain ⟨hl, hr⟩ := hplain t hml (by omega)
      have hbl : (s[t]? == some '[') = false := by
        cases hc : s[t]? with
        | none => simp
        | some c =>
          rw [hc] at hl
          have : c ≠ '[' := fun h => hl (by rw [h])
          simp [this]
      have hbr : (s[t]? == some ']') = false := by
        cases hc : s[t]? with
        | none => simp
        | some c =>
          rw [hc] at hr
          have : c ≠ ']' := fun h => hr (by rw [h])
          simp [this]
      calc insideBracketAux s pos (t + 1) d
          = insideBracketAux s pos t d := by
            simp only [insideBracketAux, hbr, hbl]
            simp
        _ = insideBracketAux s pos (m + 1) d :=
            ih d hml (fun u h1 h2 => hplain u h1 (by omega))

theorem inside_of_bracket_content {s : List Char} {i j p : Nat}
    (hm : bracketMatchAt s i = some j) (hip : i < p) (hpj : p < j)
    (hnob : ∀ k, p ≤ k → k < j → s[k]? ≠ some '[') :
    isCitationInsideBracket s p = true := by
  obtain ⟨hopen, hij, hjlen, hclose, hcontent⟩ := bracketMatchAt_spec hm
  -- the nearest opening bracket at or before p - 1
  set Q : Nat → Prop := fun u => s[u]? = some '[' with hQ
  have hQi : Q i := hopen
  have hile : i ≤ p - 1 := by omega
  have hQm : Q (Nat.findGreatest Q (p - 1)) := Nat.findGreatest_spec hile hQi
  set m := Nat.findGreatest Q (p - 1) with hmdef
  have him : i ≤ m := Nat.le_findGreatest hile hQi
  have hmp : m ≤ p - 1 := Nat.findGreatest_le (p - 1)
  have hmax : ∀ u, m < u → u ≤ p - 1 → ¬Q u := fun u h1 h2 =>
    Nat.findGreatest_is_greatest h1 h2
  -- skip the plain characters between m and p
  have hskip : insideBracketAux s p p 0 = insideBracketAux s p (m + 1) 0 := by
    apply insideBracketAux_skip p 0 (by omega)
    intro u h1 h2
    constructor
    · exact fun hc => hmax u h1 (by omega) hc
    · exact hcontent u (by omega) (by omega)
  have hbm : (s[m]? == some '[') = true := by simp [beq_iff_eq, hQm]
  have hnotr : (s[m]? == some ']') = false := by
    rw [hQm]; decide
  have hforward : forwardCloses s p = true := by
    apply forwardCloses_true hclose (by omega)
    intro u h1 h2
    exact ⟨hnob u h1 h2, hcontent u (by omega) h2⟩
  unfold isCitationInsideBracket
  rw [hskip]
  simp only [insideBracketAux, hnotr, hbm]
  simpa using hforward

/-! Token scan: soundness and completeness facts used for claim C1. -/

theorem isTokenAt_spec {s : List Char} {p : Nat} (h : isTokenAt s p = true) :
    s[p]? = some '@' ∧ ∃ c, s[p + 1]? = some c ∧ isKeyStart c = true := by
  unfold isTokenAt at h
  simp only [Bool.and_eq_true] at h
  exact ⟨by simpa [beq_iff_eq] using h.1, charPred_eq_true.mp h.2⟩

theorem keyEnd_keyChar {s : List Char} {t m : Nat} (h1 : t ≤ m)
    (h2 : m < keyEnd s t) : ∃ c, s[m]? = some c ∧ isKeyChar c = true := by
  unfold keyEnd firstIdxFrom at h2
  cases hf : firstPosFrom
      (fun i => match s[i]? with | some c => !isKeyChar c | none => false)
      s.length t with
  | none =>
    rw [hf] at h2
    simp only [Option.getD_none] at h2
    have hpred := firstPosFrom_eq_none hf m h1 h2
    have hsome : s[m]? = some (s[m]) := List.getElem?_eq_getElem h2
    rw [hsome] at hpred
    simp only [] at hpred
    refine ⟨s[m], hsome, ?_⟩
    revert hpred
    cases isKeyChar (s[m]) <;> simp
  | some j =>
    rw [hf] at h2
    simp only [Option.getD_some] at h2
    obtain ⟨ha, hb, hc0, hd⟩ := firstPosFrom_eq_some hf
    have hpred := hd m h1 h2
    have hmlen : m < s.length := by omega
    have hsome : s[m]? = some (s[m]) := List.getElem?_eq_getElem hmlen
    rw [hsome] at hpred
    simp only [] at hpred
    refine ⟨s[m], hsome, ?_⟩
    revert hpred
    cases isKeyChar (s[m]) <;> simp

theorem keyEnd_ge {s : List Char} {t : Nat} (h : t ≤ s.length) : t ≤ keyEnd s t := by
  unfold keyEnd firstIdxFrom
  cases hf : firstPosFrom
      (fun i => match s[i]? with | some c => !isKeyChar c | none => false)
      s.length t with
  | none => simpa using h
  | some j =>
    obtain ⟨hj, -, -, -⟩ := firstPosFrom_eq_some hf
    simpa using hj

theorem tokenScanAux_mem_of {s : List Char} :
    ∀ {fuel k q : Nat}, isTokenAt s q = true → k ≤ q → s.length - k < fuel →
      (q, keyEnd s (q + 2)) ∈ tokenScanAux s k fuel := by
  intro fuel
  induction fuel with
  | zero => omega
  | succ n ih =>
    intro k q htok hkq hfuel
    have hqat := isTokenAt_spec htok
    have hqlen : q < s.length := by
      rcases List.getElem?_eq_some.mp hqat.1 with ⟨hlt, -⟩
      exact hlt
    obtain ⟨j, hj, hjq⟩ :=
      firstPosFrom_exists_le (P := fun p => isTokenAt s p) hkq hqlen htok
    simp only [tokenScanAux, findTokenFrom, hj]
    rcases Nat.eq_or_lt_of_le hjq with hje | hjl
    · subst hje
      exact List.mem_cons_self _ _
    · obtain ⟨hkj, -, hjtok, -⟩ := firstPosFrom_eq_some hj
      obtain ⟨hjat, cj, hcj, hcjs⟩ := isTokenAt_spec hjtok
      have hq2 : j + 2 ≤ q := by
        rcases Nat.lt_or_ge q (j + 2) with hlt | hge
        · have hq1 : q = j + 1 := by omega
          rw [hq1] at hqat
          have hcc : cj = '@' := by
            have h' : some cj = some '@' := by rw [← hcj]; exact hqat.1
            injection h'
          rw [hcc] at hcjs
          exact absurd hcjs (by decide)
        · exact hge
      have he : keyEnd s (j + 2) ≤ q := by
        by_contra hlt
        push_neg at hlt
        obtain ⟨c, hcget, hckey⟩ := keyEnd_keyChar hq2 hlt
        have hcc : c = '@' := by
          have h' : some c = some '@' := by rw [← hcget]; exact hqat.1
          injection h'
        rw [hcc] at hckey
        exact absurd hckey (by decide)
      have hge2 : j + 2 ≤ keyEnd s (j + 2) := keyEnd_ge (by omega)
      refine List.mem_cons_of_mem _ (ih htok he ?_)
      omega

theorem tokenScan_mem_of {s : List Char} {q : Nat} (htok : isTokenAt s q = true) :
    (q, keyEnd s (q + 2)) ∈ tokenScan s :=
  tokenScanAux_mem_of htok (Nat.zero_le q) (by omega)

/-- Transfers a key token of the whole text into the inner content of a
bracket match that strictly contains it (the token letter included). -/
theorem isTokenAt_inner {s : List Char} {i j p : Nat} (hip : i < p)
    (hpj : p + 1 < j) (htok : isTokenAt s p = true) :
    isTokenAt (bracketInner s i j) (p - (i + 1)) = true := by
  obtain ⟨h1, c, h2, h3⟩ := isTokenAt_spec htok
  have hq : (bracketInner s i j)[p - (i + 1)]? = some '@' := by
    unfold bracketInner
    rw [List.getElem?_take, if_pos (by omega), List.getElem?_drop]
    rw [show i + 1 + (p - (i + 1)) = p by omega]
    exact h1
  have hq1 : (bracketInner s i j)[p - (i + 1) + 1]? = some c := by
    unfold bracketInner
    rw [List.getElem?_take, if_pos (by omega), List.getElem?_drop]
    rw [show i + 1 + (p - (i + 1) + 1) = p + 1 by omega]
    exact h2
  unfold isTokenAt
  rw [hq, hq1]
  simp [h3]

theorem inlineCitations_not_inside {s : List Char} {c : Citation}
    (h : c ∈ inlineCitations s) :
    isCitationInsideBracket s c.start = false ∧ c.type = "inline" := by
  unfold inlineCitations at h
  rw [List.mem_filterMap] at h
  obtain ⟨t, -, ht⟩ := h
  by_cases hib : isCitationInsideBracket s t.1 = true
  · rw [if_pos hib] at ht; cases ht
  · rw [if_neg hib] at ht
    cases ht
    refine ⟨?_, rfl⟩
    cases hbb : isCitationInsideBracket s t.1 with
    | false => rfl
    | true => exact absurd hbb hib

theorem bracketCitations_type {s : List Char} {c : Citation}
    (h : c ∈ bracketCitations s) : c.type = "bracket" := by
  unfold bracketCitations at h
  rw [List.mem_flatMap] at h
  obtain ⟨m, -, hm⟩ := h
  rw [List.mem_map] at hm
  obtain ⟨t, -, ht⟩ := hm
  cases ht
  rfl

theorem bracketCitations_mem_of {s : List Char} {i j p : Nat}
    (hm : (i, j) ∈ bracketMatches s) (hip : i < p) (hpj : p + 1 < j)
    (htok : isTokenAt s p = true) :
    ∃ c ∈ bracketCitations s, c.type = "bracket" ∧ c.start = i ∧ c.stop = j + 1 ∧
      c.key = keyAt (bracketInner s i j) (p - (i + 1)) := by
  have htok1 := isTokenAt_inner hip hpj htok
  have hscan := tokenScan_mem_of htok1
  refine ⟨{ key := keyAt (bracketInner s i j) (p - (i + 1))
            fullText := String.mk ((s.drop i).take (j + 1 - i))
            start := i
            stop := j + 1
            pageRef := extractPageRef (bracketInner s i j)
            type := "bracket" }, ?_, rfl, rfl, rfl, rfl⟩
  unfold bracketCitations
  rw [List.mem_flatMap]
  refine ⟨(i, j), hm, ?_⟩
  rw [List.mem_map]
  exact ⟨(p - (i + 1), keyEnd (bracketInner s i j) (p - (i + 1) + 2)), hscan, rfl⟩

/-- Claim C1, amended: in the citation locator, every at-key token lying
inside a bracket-pass match that contains at least one at token, with no
opening bracket between the token and the span's closing bracket, is
classified as inside a bracket, is excluded from the inline pass, and is
emitted by the bracket pass as a citation of type bracket carrying the
bracket's range; with an opening bracket in between, the two passes can
both report the token (see the counterexample). -/
theorem C1_bracket_token_classification (s : List Char) (i j p : Nat)
    (hm : (i, j) ∈ bracketMatches s) (htok : isTokenAt s p = true)
    (hip : i < p) (hpj : p < j)
    (hnob : ∀ k < j, p ≤ k → s[k]? ≠ some '[') :
    isCitationInsideBracket s p = true ∧
      (∀ c ∈ parseCitations s, c.type = "inline" → c.start ≠ p) ∧
      ∃ c ∈ parseCitations s, c.type = "bracket" ∧ c.start = i ∧ c.stop = j + 1 ∧
        c.key = keyAt (bracketInner s i j) (p - (i + 1)) := by
  have hmat := bracketMatches_mem hm
  have hspec := bracketMatchAt_spec hmat
  have hpj1 : p + 1 < j := by
    obtain ⟨-, c, hc, hcs⟩ := isTokenAt_spec htok
    rcases Nat.lt_or_ge (p + 1) j with h | h
    · exact h
    · have hpe : p + 1 = j := by omega
      rw [hpe] at hc
      have hcc : c = ']' := by
        have h2 := hspec.2.2.2.1
        have h3 : some c = some ']' := by rw [← hc]; exact h2
        injection h3
      rw [hcc] at hcs
      exact absurd hcs (by decide)
  have hin : isCitationInsideBracket s p = true :=
    inside_of_bracket_content hmat hip hpj (fun k h1 h2 => hnob k h2 h1)
  refine ⟨hin, ?_, ?_⟩
  · intro c hc htype hstart
    unfold parseCitations at hc
    rcases List.mem_append.mp hc with hb | hi
    · have h1 := bracketCitations_type hb
      rw [htype] at h1
      exact absurd h1 (by decide)
    · obtain ⟨hfalse, -⟩ := inlineCitations_not_inside hi
      rw [hstart, hin] at hfalse
      cases hfalse
  · obtain ⟨c, hcmem, h1, h2, h3, h4⟩ := bracketCitations_mem_of hm hip hpj1 htok
    refine ⟨c, ?_, h1, h2, h3, h4⟩
    unfold parseCitations
    exact List.mem_append.mpr (Or.inl hcmem)

/-- Witness for C1 on the document "x [@a] y": the token at offset 3 inside
the bracket span 2..5 is inside-bracket, appears in no inline citation, and
is emitted by the bracket pass. -/
theorem C1_bracket_token_classification_witness :
    isCitationInsideBracket docW 3 = true ∧
      (∀ c ∈ parseCitations docW, c.type = "inline" → c.start ≠ 3) ∧
      ∃ c ∈ parseCitations docW, c.type = "bracket" ∧ c.start = 2 ∧ c.stop = 6 ∧
        c.key = keyAt (bracketInner docW 2 5) (3 - (2 + 1)) :=
  C1_bracket_token_classification docW 2 5 3 (by decide) (by decide) (by decide)
    (by decide) (by decide)

/-- Counterexample to C1 as stated: in "[@a [@b]" the bracket pass matches
the span 0..7 (which contains at tokens) and emits the key a from the token
at offset 1, yet the inline pass also reports offset 1 as an inline
citation, because the backward-forward scan hits the nested opening bracket
at offset 4 first; the key a is therefore reported by both passes. -/
theorem C1_counterexample :
    (0, 7) ∈ bracketMatches cexDoc ∧ isTokenAt cexDoc 1 = true ∧ 0 < 1 ∧ 1 < 7 ∧
      isCitationInsideBracket cexDoc 1 = false ∧
      (∃ c ∈ parseCitations cexDoc, c.type = "inline" ∧ c.start = 1 ∧ c.key = "a") ∧
      (∃ c ∈ parseCitations cexDoc, c.type = "bracket" ∧ c.key = "a") := by
  decide

/-! ### Claim C4: the cost model -/

theorem strContains_trans {m sub big : String} (h1 : strContains m big = true)
    (h2 : sub.toList <:+: big.toList) : strContains m sub = true := by
  unfold strContains at *
  exact decide_eq_true (List.IsInfix.trans h2 (of_decide_eq_true h1))

theorem strContains_false_of {m sub big : String}
    (hsub : sub.toList <:+: big.toList) (h : strContains m sub = false) :
    strContains m big = false := by
  cases hh : strContains m big with
  | false => rfl
  | true =>
    have hs := strContains_trans hh hsub
    rw [hs] at h
    cases h

/-- Claim C4: calculateCost selects per-million-token rates by substring
match on the lower-cased model identifier, testing the opus, sonnet and
haiku family markers in that order (first match wins; the anthropic-prefixed
table entries are subsumed by the bare ones), defaults to the Sonnet rates
(input 3, output 15), and returns inputTokens/1e6 times the input rate plus
outputTokens/1e6 times the output rate. -/
theorem C4_cost_model (tokenUsage : TokenUsage) (modelId : String) :
    calculateCost tokenUsage modelId =
      (tokenUsage.inputTokens : Rat) / 1000000 *
        (if strContains (strToLower modelId) "claude-opus" then (5 : Rat)
         else if strContains (strToLower modelId) "claude-sonnet" then 3
         else if strContains (strToLower modelId) "claude-haiku" then 1
         else 3) +
      (tokenUsage.outputTokens : Rat) / 1000000 *
        (if strContains (strToLower modelId) "claude-opus" then (25 : Rat)
         else if strContains (strToLower modelId) "claude-sonnet" then 15
         else if strContains (strToLower modelId) "claude-haiku" then 5
         else 15) := by
  unfold calculateCost MODEL_PRICING
  cases h1 : strContains (strToLower modelId) "claude-opus" with
  | true => simp [selectPricingAux, h1]
  | false =>
    have h1b : strContains (strToLower modelId) "anthropic.claude-opus" = false :=
      strContains_false_of (by decide) h1
    cases h2 : strContains (strToLower modelId) "claude-sonnet" with
    | true => simp [selectPricingAux, h1, h1b, h2]
    | false =>
      have h2b : strContains (strToLower modelId) "anthropic.claude-sonnet" = false :=
        strContains_false_of (by decide) h2
      cases h3 : strContains (strToLower modelId) "claude-haiku" with
      | true => simp [selectPricingAux, h1, h1b, h2, h2b, h3]
      | false =>
        have h3b : strContains (strToLower modelId) "anthropic.claude-haiku" = false :=
          strContains_false_of (by decide) h3
        simp [selectPricingAux, h1, h1b, h2, h2b, h3, h3b]

/-! ### Claim C6: fragment aggregation -/

theorem contains_false_iff {seen : List Nat} {n : Nat} :
    seen.contains n = false ↔ n ∉ seen := by
  constructor
  · intro h hmem
    have hc : seen.contains n = true := List.elem_iff.mpr hmem
    rw [h] at hc
    cases hc
  · intro h
    cases hc : seen.contains n with
    | false => rfl
    | true => exact absurd (List.elem_iff.mp hc) h

theorem dedup_subset {seen : List Nat} {l : List Fragment} {f : Fragment}
    (h : f ∈ dedupByLineStart seen l) : f ∈ l := by
  induction l generalizing seen with
  | nil => simpa [dedupByLineStart] using h
  | cons g rest ih =>
    simp only [dedupByLineStart] at h
    by_cases hg : seen.contains g.line_start = true
    · rw [if_pos hg] at h
      exact List.mem_cons_of_mem _ (ih h)
    · rw [if_neg hg] at h
      rcases List.mem_cons.mp h with he | hm
      · exact he ▸ List.mem_cons_self _ _
      · exact List.mem_cons_of_mem _ (ih hm)

theorem dedup_not_seen {seen : List Nat} {l : List Fragment} {f : Fragment}
    (h : f ∈ dedupByLineStart seen l) : f.line_start ∉ seen := by
  induction l generalizing seen with
  | nil => simp [dedupByLineStart] at h
  | cons g rest ih =>
    simp only [dedupByLineStart] at h
    by_cases hg : seen.contains g.line_start = true
    · rw [if_pos hg] at h
      exact ih h
    · rw [if_neg hg] at h
      rcases List.mem_cons.mp h with he | hm
      · subst he
        exact contains_false_iff.mp (by
          cases hc : seen.contains f.line_start with
          | false => rfl
          | true => exact absurd hc hg)
      · have hnot := ih hm
        intro hmem
        exact hnot (List.mem_cons_of_mem _ hmem)

theorem dedup_ls_mem {seen : List Nat} {l : List Fragment} {n : Nat}
    (h : n ∈ l.map Fragment.line_start) (hn : n ∉ seen) :
    n ∈ (dedupByLineStart seen l).map Fragment.line_start := by
  induction l generalizing seen with
  | nil => simpa using h
  | cons g rest ih =>
    simp only [List.map_cons, List.mem_cons] at h
    simp only [dedupByLineStart]
    rcases h with he | hm
    · by_cases hg : seen.contains g.line_start = true
      · have hmem : g.line_start ∈ seen := List.elem_iff.mp hg
        rw [← he] at hmem
        exact absurd hmem hn
      · rw [if_neg hg]
        simp [he]
    · by_cases hg : seen.contains g.line_start = true
      · rw [if_pos hg]
        exact ih hm hn
      · rw [if_neg hg]
        by_cases hne : n = g.line_start
        · simp [hne]
        · simp only [List.map_cons, List.mem_cons]
          refine Or.inr (ih hm ?_)
          intro hmem
          rcases List.mem_cons.mp hmem with h1 | h2
          · exact hne h1
          · exact hn h2

theorem dedup_nodup {l : List Fragment} :
    ∀ {seen : List Nat}, ((dedupByLineStart seen l).map Fragment.line_start).Nodup := by
  induction l with
  | nil => intro seen; simp [dedupByLineStart]
  | cons g rest ih =>
    intro seen
    simp only [dedupByLineStart]
    by_cases hg : seen.contains g.line_start = true
    · rw [if_pos hg]
      exact ih
    · rw [if_neg hg]
      simp only [List.map_cons, List.nodup_cons]
      refine ⟨?_, ih⟩
      intro hmem
      rw [List.mem_map] at hmem
      obtain ⟨f, hf, hfe⟩ := hmem
      have hns := dedup_not_seen hf
      rw [hfe] at hns
      exact hns (List.mem_cons_self _ _)

theorem dedup_find? {seen : List Nat} {l : List Fragment} {f : Fragment}
    (h : f ∈ dedupByLineStart seen l) :
    l.find? (fun g => g.line_start == f.line_start) = some f := by
  induction l generalizing seen with
  | nil => simp [dedupByLineStart] at h
  | cons g rest ih =>
    simp only [dedupByLineStart] at h
    by_cases hg : seen.contains g.line_start = true
    · rw [if_pos hg] at h
      have hne : g.line_start ≠ f.line_start := by
        intro he
        exact dedup_not_seen h (he ▸ List.elem_iff.mp hg)
      rw [List.find?_cons_of_neg _ (by simpa using hne)]
      exact ih h
    · rw [if_neg hg] at h
      rcases List.mem_cons.mp h with he | hm
      · subst he
        rw [List.find?_cons_of_pos _ (by simp)]
      · have hnot := dedup_not_seen hm
        have hne : g.line_start ≠ f.line_start := by
          intro he
          exact hnot (he ▸ List.mem_cons_self _ _)
        rw [List.find?_cons_of_neg _ (by simpa using hne)]
        exact ih hm

theorem combineFragments_perm (kw sem : List Fragment) :
    (combineFragments kw sem).Perm (dedupByLineStart [] (kw ++ sem)) := by
  unfold combineFragments
  exact List.perm_insertionSort _ _

/-- Claim C6: the fragment aggregator concatenates keyword fragments before
semantic fragments, keeps only the first occurrence of each line_start (so
the surviving fragment for a line_start is the first fragment carrying it
in the concatenation, keyword side winning ties), and returns the survivors
sorted strictly ascending by line_start; on the concrete example the
line_starts are exactly 2, 5, 10 with the keyword fragment surviving at
line_start 10. -/
theorem C6_fragment_aggregation :
    (∀ kw sem : List Fragment,
        List.Pairwise (fun a b : Fragment => a.line_start < b.line_start)
          (combineFragments kw sem) ∧
        (∀ n, n ∈ (combineFragments kw sem).map Fragment.line_start ↔
            n ∈ (kw ++ sem).map Fragment.line_start) ∧
        (∀ f ∈ combineFragments kw sem,
          (kw ++ sem).find? (fun g => g.line_start == f.line_start) = some f)) ∧
      combineFragments
          [⟨5, 5, ["k5"], []⟩, ⟨10, 10, ["k10"], []⟩]
          [⟨10, 10, ["s10"], []⟩, ⟨2, 2, ["s2"], []⟩] =
        [⟨2, 2, ["s2"], []⟩, ⟨5, 5, ["k5"], []⟩, ⟨10, 10, ["k10"], []⟩] := by
  constructor
  · intro kw sem
    have hperm := combineFragments_perm kw sem
    have hnodupd : ((dedupByLineStart [] (kw ++ sem)).map Fragment.line_start).Nodup :=
      dedup_nodup
    have hnodup : ((combineFragments kw sem).map Fragment.line_start).Nodup :=
      List.Perm.nodup (hperm.map Fragment.line_start).symm hnodupd
    refine ⟨?_, ?_, ?_⟩
    · have hsorted : List.Pairwise
          (fun a b : Fragment => a.line_start ≤ b.line_start)
          (combineFragments kw sem) := by
        unfold combineFragments
        haveI : IsTotal Fragment (fun a b : Fragment => a.line_start ≤ b.line_start) :=
          ⟨fun a b => Nat.le_total a.line_start b.line_start⟩
        haveI : IsTrans Fragment (fun a b : Fragment => a.line_start ≤ b.line_start) :=
          ⟨fun _ _ _ h1 h2 => Nat.le_trans h1 h2⟩
        exact List.sorted_insertionSort _ _
      have hne : List.Pairwise
          (fun a b : Fragment => a.line_start ≠ b.line_start)
          (combineFragments kw sem) := List.pairwise_map.mp hnodup
      exact (hsorted.and hne).imp fun h => Nat.lt_of_le_of_ne h.1 h.2
    · intro n
      constructor
      · intro hn
        rw [List.mem_map] at hn
        obtain ⟨f, hf, hfe⟩ := hn
        have hf2 : f ∈ dedupByLineStart [] (kw ++ sem) := hperm.subset hf
        exact hfe ▸ List.mem_map_of_mem _ (dedup_subset hf2)
      · intro hn
        have hd := dedup_ls_mem hn (List.not_mem_nil n)
        rw [List.mem_map] at hd
        obtain ⟨f, hf, hfe⟩ := hd
        exact hfe ▸ List.mem_map_of_mem _ (hperm.symm.subset hf)
    · intro f hf
      exact dedup_find? (hperm.subset hf)
  · decide

/-- Witness for C6: the surviving fragment at line_start 10 of the concrete
example is the keyword fragment, the first occurrence in the
concatenation. -/
theorem C6_fragment_aggregation_witness :
    ([⟨5, 5, ["k5"], []⟩, ⟨10, 10, ["k10"], []⟩] ++
        [⟨10, 10, ["s10"], []⟩, ⟨2, 2, ["s2"], []⟩] : List Fragment).find?
        (fun g => g.line_start == (⟨10, 10, ["k10"], []⟩ : Fragment).line_start) =
      some ⟨10, 10, ["k10"], []⟩ :=
  (C6_fragment_aggregation.1 [⟨5, 5, ["k5"], []⟩, ⟨10, 10, ["k10"], []⟩]
      [⟨10, 10, ["s10"], []⟩, ⟨2, 2, ["s2"], []⟩]).2.2
    ⟨10, 10, ["k10"], []⟩ (by decide)

/-! ### Cache lemmas shared by the service and validator claims -/

theorem cache_get_set_same {α : Type} (c : CacheService α) (now now2 : Nat)
    (k : String) (v : α) (h : now2 ≤ now + c.ttlMs) :
    ((c.set now k v).get now2 k).1 = some v := by
  unfold CacheService.get CacheService.set CacheService.find?
  rw [List.find?_cons_of_pos _ (by simp)]
  simp only [Option.map_some']
  rw [if_neg (by omega)]

theorem cache_set_ttl {α : Type} (c : CacheService α) (now : Nat) (k : String)
    (v : α) : (c.set now k v).ttlMs = c.ttlMs := rfl

/-! ### Claim C7: entry lookup across categories -/

/-- Claim C7: on a cache miss, getPaper probes the categories paper, book,
media in exactly that order, stops at the first category whose CLI call
succeeds with parseable JSON (caching the entry under entry:key), returns
nothing when all three fail (leaving the key uncached), and for a key
available only under book it executes exactly the paper and book commands
and never the media command. -/
theorem C7_entry_lookup (env : CorpusEnv) (now : Nat) (cache : CacheService Json)
    (key : String)
    (hmiss : (cache.get now ("entry:" ++ key)).1 = none) :
    (∀ v, jsonOkOf (env.exec (showCmd "paper" key)) = some v →
        (getPaper env now cache key).1 = some v ∧
        (getPaper env now cache key).2.2 = [showCmd "paper" key] ∧
        (((getPaper env now cache key).2.1).get now ("entry:" ++ key)).1 = some v) ∧
    (jsonOkOf (env.exec (showCmd "paper" key)) = none →
      ∀ v, jsonOkOf (env.exec (showCmd "book" key)) = some v →
        (getPaper env now cache key).1 = some v ∧
        (getPaper env now cache key).2.2 = [showCmd "paper" key, showCmd "book" key] ∧
        showCmd "media" key ∉ (getPaper env now cache key).2.2 ∧
        (((getPaper env now cache key).2.1).get now ("entry:" ++ key)).1 = some v) ∧
    (jsonOkOf (env.exec (showCmd "paper" key)) = none →
      jsonOkOf (env.exec (showCmd "book" key)) = none →
      ∀ v, jsonOkOf (env.exec (showCmd "media" key)) = some v →
        (getPaper env now cache key).1 = some v ∧
        (getPaper env now cache key).2.2 =
          [showCmd "paper" key, showCmd "book" key, showCmd "media" key]) ∧
    (jsonOkOf (env.exec (showCmd "paper" key)) = none →
      jsonOkOf (env.exec (showCmd "book" key)) = none →
      jsonOkOf (env.exec (showCmd "media" key)) = none →
        (getPaper env now cache key).1 = none ∧
        (getPaper env now cache key).2.2 =
          [showCmd "paper" key, showCmd "book" key, showCmd "media" key]) := by
  have hunfold : getPaper env now cache key =
      getPaperAux env now key ["paper", "book", "media"]
        (cache.get now ("entry:" ++ key)).2 := by
    unfold getPaper
    rcases hpair : cache.get now ("entry:" ++ key) with ⟨o, cc⟩
    rw [hpair] at hmiss
    have ho : o = none := hmiss
    subst ho
    rfl
  set c1 := (cache.get now ("entry:" ++ key)).2 with hc1
  have hstep : ∀ (t : String) (rest : List String) (c : CacheService Json),
      jsonOkOf (env.exec (showCmd t key)) = none →
      getPaperAux env now key (t :: rest) c =
        ((getPaperAux env now key rest c).1, (getPaperAux env now key rest c).2.1,
          showCmd t key :: (getPaperAux env now key rest c).2.2) := by
    intro t rest c hnone
    unfold jsonOkOf at hnone
    cases hex : env.exec (showCmd t key) with
    | error e => simp only [getPaperAux, hex]
    | ok out =>
      rw [hex] at hnone
      have hnone2 : (jsonParse out).toOption = none := hnone
      cases hjp : jsonParse out with
      | error e => simp only [getPaperAux, hex, hjp]
      | ok entry =>
        rw [hjp] at hnone2
        simp [Except.toOption] at hnone2
  have hhit : ∀ (t : String) (rest : List String) (c : CacheService Json) (v : Json),
      jsonOkOf (env.exec (showCmd t key)) = some v →
      getPaperAux env now key (t :: rest) c =
        (some v, c.set now ("entry:" ++ key) v, [showCmd t key]) := by
    intro t rest c v hv
    unfold jsonOkOf at hv
    cases hex : env.exec (showCmd t key) with
    | error e => rw [hex] at hv; cases hv
    | ok out =>
      rw [hex] at hv
      have hv2 : (jsonParse out).toOption = some v := hv
      cases hjp : jsonParse out with
      | error e => rw [hjp] at hv2; simp [Except.toOption] at hv2
      | ok entry =>
        rw [hjp] at hv2
        simp only [Except.toOption] at hv2
        cases hv2
        simp only [getPaperAux, hex, hjp]
  refine ⟨?_, ?_, ?_, ?_⟩
  · intro v hv
    have he : getPaper env now cache key =
        (some v, c1.set now ("entry:" ++ key) v, [showCmd "paper" key]) := by
      rw [hunfold, hhit "paper" _ c1 v hv]
    rw [he]
    exact ⟨rfl, rfl, cache_get_set_same c1 now now ("entry:" ++ key) v (by omega)⟩
  · intro hp v hv
    have he : getPaper env now cache key =
        (some v, c1.set now ("entry:" ++ key) v,
          [showCmd "paper" key, showCmd "book" key]) := by
      rw [hunfold, hstep "paper" _ c1 hp, hhit "book" _ c1 v hv]
    rw [he]
    refine ⟨rfl, rfl, ?_, cache_get_set_same c1 now now ("entry:" ++ key) v (by omega)⟩
    intro hmem
    rcases List.mem_cons.mp hmem with h1 | h2
    · have h1h : "media" = "paper" := by
        have := congrArg (fun l : List String => l.headI) h1
        simpa [showCmd] using this
      exact absurd h1h (by decide)
    · rcases List.mem_cons.mp h2 with h3 | h4
      · have h3h : "media" = "book" := by
          have := congrArg (fun l : List String => l.headI) h3
          simpa [showCmd] using this
        exact absurd h3h (by decide)
      · simp at h4
  · intro hp hb v hv
    have he : getPaper env now cache key =
        (some v, c1.set now ("entry:" ++ key) v,
          [showCmd "paper" key, showCmd "book" key, showCmd "media" key]) := by
      rw [hunfold, hstep "paper" _ c1 hp, hstep "book" _ c1 hb, hhit "media" _ c1 v hv]
    rw [he]
    exact ⟨rfl, rfl⟩
  · intro hp hb hm
    have he : getPaper env now cache key =
        (none, c1, [showCmd "paper" key, showCmd "book" key, showCmd "media" key]) := by
      rw [hunfold, hstep "paper" _ c1 hp, hstep "book" _ c1 hb, hstep "media" _ c1 hm]
      rfl
    rw [he]
    exact ⟨rfl, rfl⟩

/-- Witness for C7: a corpus holding the key only under book executes the
paper probe, then the book probe, never media, and caches the hit. -/
theorem C7_entry_lookup_witness :
    (getPaper sampleCorpusBookOnly 0 emptyJsonCache "k1").1.isSome = true ∧
    (getPaper sampleCorpusBookOnly 0 emptyJsonCache "k1").2.2 =
      [showCmd "paper" "k1", showCmd "book" "k1"] ∧
    showCmd "media" "k1" ∉ (getPaper sampleCorpusBookOnly 0 emptyJsonCache "k1").2.2 := by
  have h := (C7_entry_lookup sampleCorpusBookOnly 0 emptyJsonCache "k1" (by rfl)).2.1
    (by rfl)
  obtain ⟨h1, h2, h3, h4⟩ := h (Json.obj [("id", Json.str "k1"), ("title", Json.str "B")]) (by rfl)
  exact ⟨by rw [h1]; rfl, h2, h3⟩

/-! ### Path lemmas for validateCitation -/

theorem cache_get_ttl {α : Type} (c : CacheService α) (now : Nat) (k : String) :
    ((c.get now k).2).ttlMs = c.ttlMs := by
  unfold CacheService.get
  cases hf : c.find? k with
  | none => rfl
  | some entry =>
    simp only []
    by_cases hexp : now > entry.expiresAt
    · rw [if_pos hexp]
    · rw [if_neg hexp]

theorem cache_get_of_find_none {α : Type} {c : CacheService α} {now : Nat}
    {k : String} (h : c.find? k = none) : c.get now k = (none, c) := by
  unfold CacheService.get
  rw [h]

theorem validateCitation_hit {env : ValidatorEnv} {now : Nat} {c : Citation}
    {p : Paragraph} {st : VState} {r : ValidationResult}
    (hhit : (st.cache.get now (validationCacheKey c p)).1 = some r) :
    validateCitation env now c p st =
      (r, { st with cache := (st.cache.get now (validationCacheKey c p)).2 }) := by
  unfold validateCitation
  simp only []
  rcases hpair : st.cache.get now (validationCacheKey c p) with ⟨o, c1⟩
  rw [hpair] at hhit
  have ho : o = some r := hhit
  subst ho
  rfl

theorem validateCitation_missing {env : ValidatorEnv} {now : Nat} {c : Citation}
    {p : Paragraph} {st : VState}
    (hmiss : (st.cache.get now (validationCacheKey c p)).1 = none)
    (hfail : (env.getPaperWithQuotes c.key).paper = none ∨
      jsTruthyStr (env.getPaperWithQuotes c.key).error = true) :
    validateCitation env now c p st =
      (entryMissingResult c p (env.getPaperWithQuotes c.key).error,
       { st with cache := (st.cache.get now (validationCacheKey c p)).2 }) := by
  unfold validateCitation
  simp only []
  rcases hpair : st.cache.get now (validationCacheKey c p) with ⟨o, c1⟩
  rw [hpair] at hmiss
  have ho : o = none := hmiss
  subst ho
  simp only []
  rcases hfail with hnone | htruthy
  · rw [hnone]
  · cases hp : (env.getPaperWithQuotes c.key).paper with
    | none => rfl
    | some paper =>
      simp only [htruthy, if_true]

theorem validateCitation_oracle_ok {env : ValidatorEnv} {now : Nat} {c : Citation}
    {p : Paragraph} {st : VState} {paper : Paper} {resp : LLMValidationResponse}
    (hmiss : (st.cache.get now (validationCacheKey c p)).1 = none)
    (hp : (env.getPaperWithQuotes c.key).paper = some paper)
    (herr : jsTruthyStr (env.getPaperWithQuotes c.key).error = false)
    (hok : env.oracle (validationRequestOf env c p paper) = .ok resp) :
    validateCitation env now c p st =
      (successResult env c p paper resp,
       { cache :=
           ((st.cache.get now (validationCacheKey c p)).2).set now
             (validationCacheKey c p) (successResult env c p paper resp)
         oracleCalls := st.oracleCalls + 1 }) := by
  unfold validateCitation
  simp only []
  rcases hpair : st.cache.get now (validationCacheKey c p) with ⟨o, c1⟩
  rw [hpair] at hmiss
  have ho : o = none := hmiss
  subst ho
  simp only []
  rw [hp]
  split
  next h => simp at h
  next paper2 h =>
    injection h with hh
    subst hh
    rw [if_neg (by simp [herr])]
    rw [hok]

theorem validateCitation_oracle_err {env : ValidatorEnv} {now : Nat} {c : Citation}
    {p : Paragraph} {st : VState} {paper : Paper} {msg : String}
    (hmiss : (st.cache.get now (validationCacheKey c p)).1 = none)
    (hp : (env.getPaperWithQuotes c.key).paper = some paper)
    (herr : jsTruthyStr (env.getPaperWithQuotes c.key).error = false)
    (hbad : env.oracle (validationRequestOf env c p paper) = .error msg) :
    validateCitation env now c p st =
      (oracleFailureResult env c p paper msg,
       { cache := (st.cache.get now (validationCacheKey c p)).2
         oracleCalls := st.oracleCalls + 1 }) := by
  unfold validateCitation
  simp only []
  rcases hpair : st.cache.get now (validationCacheKey c p) with ⟨o, c1⟩
  rw [hpair] at hmiss
  have ho : o = none := hmiss
  subst ho
  simp only []
  rw [hp]
  split
  next h => simp at h
  next paper2 h =>
    injection h with hh
    subst hh
    rw [if_neg (by simp [herr])]
    rw [hbad]

/-! ### Document-level lemmas -/

theorem validateDocument_length (env : ValidatorEnv) (now : Nat) :
    ∀ (cs : List Citation) (ps : List Paragraph) (st : VState),
      (validateDocument env now cs ps st).1.length = cs.length := by
  intro cs
  induction cs with
  | nil => intro ps st; rfl
  | cons c rest ih =>
    intro ps st
    simp only [validateDocument, List.length_cons]
    rw [ih]

theorem validateDocument_append (env : ValidatorEnv) (now : Nat) :
    ∀ (l1 l2 : List Citation) (ps : List Paragraph) (st : VState),
      validateDocument env now (l1 ++ l2) ps st =
        ((validateDocument env now l1 ps st).1 ++
           (validateDocument env now l2 ps (validateDocument env now l1 ps st).2).1,
         (validateDocument env now l2 ps (validateDocument env now l1 ps st).2).2) := by
  intro l1
  induction l1 with
  | nil => intro l2 ps st; rfl
  | cons c rest ih =>
    intro l2 ps st
    simp only [List.cons_append, validateDocument, List.append_eq]
    rw [ih]

theorem set_append_len {α : Type} :
    ∀ (l1 l2 : List α) (v : α), (l1 ++ l2).set l1.length v = l1 ++ l2.set 0 v := by
  intro l1
  induction l1 with
  | nil => intro l2 v; rfl
  | cons a rest ih =>
    intro l2 v
    simp only [List.cons_append, List.length_cons, List.set_cons_succ]
    rw [ih]

theorem writeResults_fill :
    ∀ (rs done : List ValidationResult) (n : Nat), rs.length ≤ n →
      writeResults (done.map some ++ List.replicate n none) done.length rs =
        (done ++ rs).map some ++ List.replicate (n - rs.length) none := by
  intro rs
  induction rs with
  | nil =>
    intro done n h
    simp [writeResults]
  | cons r rest ih =>
    intro done n h
    obtain ⟨m, rfl⟩ : ∃ m, n = m + 1 :=
      ⟨n - 1, by simp only [List.length_cons] at h; omega⟩
    simp only [writeResults]
    have hset : (done.map some ++ List.replicate (m + 1) (none : Option ValidationResult)).set
        done.length (some r) = (done ++ [r]).map some ++ List.replicate m none := by
      rw [List.replicate_succ]
      rw [show done.length = (done.map some).length from (List.length_map _ _).symm]
      rw [set_append_len]
      simp
    rw [hset]
    rw [show done.length + 1 = (done ++ [r]).length by simp]
    rw [ih (done ++ [r]) m (by simp only [List.length_cons] at h; omega)]
    rw [show (done ++ [r]) ++ rest = done ++ (r :: rest) by simp]
    rw [show m - rest.length = (m + 1) - (r :: rest).length from by
      simp only [List.length_cons]; omega]

theorem vdclAux_spec (env : ValidatorEnv) (now : Nat) (ps : List Paragraph)
    (limit : Nat) (hl : 1 ≤ limit) :
    ∀ (fuel : Nat) (remaining : List Citation) (done : List ValidationResult)
      (n : Nat) (st : VState), remaining.length ≤ n → remaining.length < fuel →
      vdclAux env now ps limit fuel remaining done.length
          (done.map some ++ List.replicate n none) st =
        ((done ++ (validateDocument env now remaining ps st).1).map some ++
           List.replicate (n - remaining.length) none,
         (validateDocument env now remaining ps st).2) := by
  intro fuel
  induction fuel with
  | zero => omega
  | succ f ih =>
    intro remaining done n st hn hfuel
    cases remaining with
    | nil => simp [vdclAux, validateDocument]
    | cons c rest =>
      simp only [vdclAux]
      have hcp : (c :: rest).length = rest.length + 1 := by simp
      have hlen1 : (validateDocument env now ((c :: rest).take limit) ps st).1.length =
          ((c :: rest).take limit).length := validateDocument_length env now _ ps st
      have htklen : ((c :: rest).take limit).length = min limit (c :: rest).length :=
        List.length_take _ _
      have hmin : min limit (c :: rest).length ≤ (c :: rest).length := min_le_right _ _
      have htkle : ((c :: rest).take limit).length ≤ n := by omega
      rw [writeResults_fill (validateDocument env now ((c :: rest).take limit) ps st).1
        done n (by omega)]
      rcases le_or_lt (c :: rest).length limit with hsmall | hbig
      · have hb2 : (c :: rest).take limit = c :: rest := List.take_of_length_le hsmall
        have hr2 : (c :: rest).drop limit = [] := List.drop_eq_nil_of_le hsmall
        rw [hr2]
        cases f with
        | zero => omega
        | succ f2 =>
          simp only [vdclAux]
          rw [hb2] at hlen1 ⊢
          rw [hlen1]
      · have hblen2 : ((c :: rest).take limit).length = limit := by
          rw [htklen]
          exact min_eq_left (le_of_lt hbig)
        have hidx : done.length + limit =
            ((done ++ (validateDocument env now ((c :: rest).take limit) ps st).1)).length := by
          simp only [List.length_append]
          omega
        rw [hidx]
        have hdlen : ((c :: rest).drop limit).length = (c :: rest).length - limit :=
          List.length_drop _ _
        have hvdlen : (validateDocument env now ((c :: rest).take limit) ps st).1.length =
            limit := by rw [hlen1, hblen2]
        have hcond1 : ((c :: rest).drop limit).length ≤
            n - (validateDocument env now ((c :: rest).take limit) ps st).1.length := by
          rw [hvdlen, hdlen]
          omega
        have hcond2 : ((c :: rest).drop limit).length < f := by
          rw [hdlen]
          omega
        rw [ih ((c :: rest).drop limit)
            (done ++ (validateDocument env now ((c :: rest).take limit) ps st).1)
            (n - (validateDocument env now ((c :: rest).take limit) ps st).1.length)
            (validateDocument env now ((c :: rest).take limit) ps st).2
            hcond1 hcond2]
        have happ := validateDocument_append env now ((c :: rest).take limit)
          ((c :: rest).drop limit) ps st
        rw [List.take_append_drop] at happ
        rw [happ]
        simp only [List.append_assoc]
        have hcount : n - (validateDocument env now ((c :: rest).take limit) ps st).1.length -
            ((c :: rest).drop limit).length = n - (c :: rest).length := by
          rw [hvdlen, hdlen]
          omega
        congr 2
        rw [hcount]

theorem vdcl_eq_validateDocument (env : ValidatorEnv) (now : Nat)
    (cs : List Citation) (ps : List Paragraph) (limit : Nat) (st : VState)
    (hl : 1 ≤ limit) :
    validateDocumentWithConcurrencyLimit env now cs ps limit st =
      ((validateDocument env now cs ps st).1.map some,
       (validateDocument env now cs ps st).2) := by
  unfold validateDocumentWithConcurrencyLimit
  have h := vdclAux_spec env now ps limit hl (cs.length + 1) cs [] cs.length st
    (Nat.le_refl _) (by omega)
  simp only [List.map_nil, List.nil_append, List.length_nil] at h
  rw [h]
  simp

/-! Batch decomposition lemmas. -/

theorem batchesAux_flatten {α : Type} (limit : Nat) (hl : 1 ≤ limit) :
    ∀ (fuel : Nat) (l : List α), l.length < fuel →
      (batchesAux limit fuel l).flatten = l := by
  intro fuel
  induction fuel with
  | zero => omega
  | succ f ih =>
    intro l hlen
    cases l with
    | nil => simp [batchesAux]
    | cons a rest =>
      simp only [batchesAux, List.flatten_cons]
      rw [ih ((a :: rest).drop limit) (by
        simp only [List.length_drop, List.length_cons]
        simp only [List.length_cons] at hlen
        omega)]
      exact List.take_append_drop _ _

theorem batchesAux_le {α : Type} (limit : Nat) :
    ∀ (fuel : Nat) (l : List α) (b : List α), b ∈ batchesAux limit fuel l →
      b.length ≤ limit := by
  intro fuel
  induction fuel with
  | zero => intro l b h; simp [batchesAux] at h
  | succ f ih =>
    intro l b h
    cases l with
    | nil => simp [batchesAux] at h
    | cons a rest =>
      simp only [batchesAux] at h
      rcases List.mem_cons.mp h with he | hm
      · subst he
        simpa using List.length_take_le _ _
      · exact ih _ _ hm

/-! ### Claim C2: per-citation totality and error conversion -/

/-- Claim C2: validateDocument (and, for any positive limit, the bounded
variant) yields exactly one result per input citation; a missing or failed
entry lookup, a failed oracle call (which carries throws from the Bedrock
invocation and the response parsing), and a missing paragraph context are
each converted into a terminal result with status not_supported and
confidence 0 whose explanation carries the failure message, so
validateCitation never propagates a failure to its caller. -/
theorem C2_error_conversion (env : ValidatorEnv) (now : Nat)
    (cs : List Citation) (ps : List Paragraph) (limit : Nat) (st : VState)
    (hl : 1 ≤ limit) :
    (validateDocument env now cs ps st).1.length = cs.length ∧
    (validateDocumentWithConcurrencyLimit env now cs ps limit st).1.length =
      cs.length ∧
    (∀ (c : Citation) (p : Paragraph) (st2 : VState),
      (st2.cache.get now (validationCacheKey c p)).1 = none →
      ((env.getPaperWithQuotes c.key).paper = none ∨
        jsTruthyStr (env.getPaperWithQuotes c.key).error = true) →
      (validateCitation env now c p st2).1.status = "not_supported" ∧
      (validateCitation env now c p st2).1.confidence = 0 ∧
      (validateCitation env now c p st2).1.explanation =
        (if jsTruthyStr (env.getPaperWithQuotes c.key).error then
          ((env.getPaperWithQuotes c.key).error).getD ""
        else "Paper not found: " ++ c.key)) ∧
    (∀ (c : Citation) (p : Paragraph) (st2 : VState) (paper : Paper)
        (msg : String),
      (st2.cache.get now (validationCacheKey c p)).1 = none →
      (env.getPaperWithQuotes c.key).paper = some paper →
      jsTruthyStr (env.getPaperWithQuotes c.key).error = false →
      env.oracle (validationRequestOf env c p paper) = .error msg →
      (validateCitation env now c p st2).1.status = "not_supported" ∧
      (validateCitation env now c p st2).1.confidence = 0 ∧
      (validateCitation env now c p st2).1.explanation =
        "Validation failed: " ++ msg) ∧
    (∀ (c : Citation) (st2 : VState),
      ps.find? (fun q => paragraphContains q c) = none →
      validateWithContext env now ps c st2 = (orphanResult c, st2) ∧
      (orphanResult c).status = "not_supported" ∧
      (orphanResult c).confidence = 0 ∧
      (orphanResult c).explanation = "Could not determine paragraph context") := by
  refine ⟨validateDocument_length env now cs ps st, ?_, ?_, ?_, ?_⟩
  · rw [vdcl_eq_validateDocument env now cs ps limit st hl]
    show ((validateDocument env now cs ps st).1.map some).length = cs.length
    rw [List.length_map]
    exact validateDocument_length env now cs ps st
  · intro c p st2 hmiss hfail
    rw [validateCitation_missing hmiss hfail]
    exact ⟨rfl, rfl, rfl⟩
  · intro c p st2 paper msg hmiss hp herr hbad
    rw [validateCitation_oracle_err hmiss hp herr hbad]
    exact ⟨rfl, rfl, rfl⟩
  · intro c st2 hfind
    refine ⟨?_, rfl, rfl, rfl⟩
    unfold validateWithContext
    rw [hfind]

/-- Instantiation of C2 at concrete sample data: an orphan citation
resolves to the orphan result, and a throwing oracle is converted into a
not_supported result. -/
theorem C2_error_conversion_witness :
    validateWithContext sampleEnvOk 0 [] sampleCitation emptyState =
      (orphanResult sampleCitation, emptyState) ∧
    (validateCitation sampleEnvThrow 0 sampleCitation sampleParagraph
      emptyState).1.status = "not_supported" :=
  ⟨((C2_error_conversion sampleEnvOk 0 [] [] 1 emptyState (by decide)).2.2.2.2
      sampleCitation emptyState rfl).1,
   ((C2_error_conversion sampleEnvThrow 0 [] [] 1 emptyState (by decide)).2.2.2.1
      sampleCitation sampleParagraph emptyState samplePaper "boom"
      rfl rfl rfl rfl).1⟩

/-! ### Claim C3: response parser failure taxonomy -/

/-- Claim C3 counterexample: on a response holding a valid JSON object
followed by a second object, the code's extraction (first opening brace to
last closing brace) produces an unparseable span and the parser fails,
while extraction of the first balanced brace-delimited substring - what the
specification describes - succeeds with confidence 1.  So extraction is not
"the first balanced \x7b...\x7d JSON substring". -/
theorem C3_counterexample :
    parsedConfidence (parseValidationResponse cexResponse) = none ∧
    (matchBraces cexResponse.toList).isSome = true ∧
    parsedConfidence (specParseValidationResponse cexResponse) = some 1 := by
  refine ⟨by decide, by decide, by decide⟩

/-- Claim C3, amended: the failure taxonomy holds with extraction taking
the span from the first opening brace to the last closing brace of the
whole text (the regex match), not the first balanced object: no such span
means the no-JSON failure, an unparseable span fails with the JSON parse
failure, a missing status/confidence/explanation field means the
missing-fields failure, a non-enum status means the invalid-status failure,
and otherwise parsing succeeds with supportingQuoteIndices and rephrase
passed through unmodified. -/
theorem C3_response_taxonomy (response : String) :
    (matchBraces response.toList = none →
      parseValidationResponse response = .error "No JSON found in response") ∧
    (∀ (sub : List Char) (e : String),
      matchBraces response.toList = some sub →
      jsonParse (String.mk sub) = .error e →
      parseValidationResponse response = .error e) ∧
    (∀ (sub : List Char) (parsed : Json),
      matchBraces response.toList = some sub →
      jsonParse (String.mk sub) = .ok parsed →
      ((!jsTruthy ((objLookup parsed "status").getD .null) ||
        !isNumField (objLookup parsed "confidence") ||
        !jsTruthyOpt (objLookup parsed "explanation")) = true →
        parseValidationResponse response =
          .error "Invalid response format: missing required fields") ∧
      ((!jsTruthy ((objLookup parsed "status").getD .null) ||
        !isNumField (objLookup parsed "confidence") ||
        !jsTruthyOpt (objLookup parsed "explanation")) = false →
        statusIsEnum ((objLookup parsed "status").getD .null) = false →
        parseValidationResponse response =
          .error ("Invalid status value: " ++
            jsDisplay ((objLookup parsed "status").getD .null))) ∧
      ((!jsTruthy ((objLookup parsed "status").getD .null) ||
        !isNumField (objLookup parsed "confidence") ||
        !jsTruthyOpt (objLookup parsed "explanation")) = false →
        statusIsEnum ((objLookup parsed "status").getD .null) = true →
        parseValidationResponse response =
          .ok { status := strValOrEmpty ((objLookup parsed "status").getD .null)
                confidence := max 0 (min 1 (numValOr0
                  ((objLookup parsed "confidence").getD .null)))
                explanation := (objLookup parsed "explanation").getD .null
                supportingQuoteIndices :=
                  objLookup parsed "supportingQuoteIndices"
                rephrase := objLookup parsed "rephrase" })) := by
  refine ⟨?_, ?_, ?_⟩
  · intro hm
    unfold parseValidationResponse
    rw [hm]
  · intro sub e hm hj
    unfold parseValidationResponse
    rw [hm]
    show parseResponseSub sub = .error e
    unfold parseResponseSub
    rw [hj]
  · intro sub parsed hm hj
    unfold parseValidationResponse
    rw [hm]
    have hps : parseResponseSub sub = parseResponseObject parsed := by
      unfold parseResponseSub
      rw [hj]
    refine ⟨?_, ?_, ?_⟩
    · intro hcond
      show parseResponseSub sub = _
      rw [hps]
      unfold parseResponseObject
      rw [if_pos hcond]
    · intro hcond hst
      show parseResponseSub sub = _
      rw [hps]
      unfold parseResponseObject
      rw [if_neg (by rw [hcond]; exact Bool.false_ne_true)]
      rw [if_pos (by rw [hst]; rfl)]
    · intro hcond hst
      show parseResponseSub sub = _
      rw [hps]
      unfold parseResponseObject
      rw [if_neg (by rw [hcond]; exact Bool.false_ne_true)]
      rw [if_neg (by rw [hst]; simp)]

/-- Instantiation of C3's success branch at resp15: all hypotheses hold by
computation and the parser output is the clamped record. -/
theorem C3_response_taxonomy_witness :
    parseValidationResponse resp15 =
      .ok { status := strValOrEmpty ((objLookup resp15Json "status").getD .null)
            confidence := max 0 (min 1 (numValOr0
              ((objLookup resp15Json "confidence").getD .null)))
            explanation := (objLookup resp15Json "explanation").getD .null
            supportingQuoteIndices :=
              objLookup resp15Json "supportingQuoteIndices"
            rephrase := objLookup resp15Json "rephrase" } :=
  ((C3_response_taxonomy resp15).2.2 resp15.toList resp15Json rfl rfl).2.2
    rfl rfl

/-! ### Claim C5: validation cache identity -/

/-- Claim C5 counterexample: with an oracle that fails, two successive
calls to validateCitation with the same citation key and paragraph text
(well inside the TTL window - both at time 0) invoke the oracle twice, not
at most once: the failure is never cached, so the claimed unconditional
cache identity does not hold. -/
theorem C5_counterexample :
    (validateCitation sampleEnvThrow 0 sampleCitation sampleParagraph
      (validateCitation sampleEnvThrow 0 sampleCitation sampleParagraph
        emptyState).2).2.oracleCalls = 2 := by
  decide

/-- Claim C5, amended: when the first call succeeds (entry found, oracle
returns a response), a second call within the TTL window with any
citation bearing the same key and any paragraph bearing the same text -
the cache key is built from (key, hash(text)) alone, so the records may
otherwise differ - returns the identical cached ValidationResult without
invoking the oracle again, so the oracle runs exactly once across the two
calls. -/
theorem C5_cache_identity (env : ValidatorEnv) (now1 now2 : Nat)
    (c c2 : Citation) (p p2 : Paragraph) (st : VState) (paper : Paper)
    (resp : LLMValidationResponse)
    (hkey : c2.key = c.key) (htext : p2.text = p.text)
    (hfind : st.cache.find? (validationCacheKey c p) = none)
    (hp : (env.getPaperWithQuotes c.key).paper = some paper)
    (herr : jsTruthyStr (env.getPaperWithQuotes c.key).error = false)
    (hok : env.oracle (validationRequestOf env c p paper) = .ok resp)
    (httl : now2 ≤ now1 + st.cache.ttlMs) :
    (validateCitation env now1 c p st).1 = successResult env c p paper resp ∧
    (validateCitation env now1 c p st).2.oracleCalls = st.oracleCalls + 1 ∧
    (validateCitation env now2 c2 p2 (validateCitation env now1 c p st).2).1 =
      (validateCitation env now1 c p st).1 ∧
    (validateCitation env now2 c2 p2
      (validateCitation env now1 c p st).2).2.oracleCalls =
      st.oracleCalls + 1 := by
  have hget : st.cache.get now1 (validationCacheKey c p) = (none, st.cache) :=
    cache_get_of_find_none hfind
  have hmiss : (st.cache.get now1 (validationCacheKey c p)).1 = none := by
    rw [hget]
  have h1 := validateCitation_oracle_ok hmiss hp herr hok
  have hkeq : validationCacheKey c2 p2 = validationCacheKey c p := by
    unfold validationCacheKey
    rw [hkey, htext]
  have hst1c : ((validateCitation env now1 c p st).2).cache =
      st.cache.set now1 (validationCacheKey c p)
        (successResult env c p paper resp) := by
    rw [h1]
    show ((st.cache.get now1 (validationCacheKey c p)).2).set now1
      (validationCacheKey c p) (successResult env c p paper resp) = _
    rw [hget]
  have hhit2 : (((validateCitation env now1 c p st).2).cache.get now2
      (validationCacheKey c2 p2)).1 = some (successResult env c p paper resp) := by
    rw [hkeq, hst1c]
    exact cache_get_set_same st.cache now1 now2 _ _ httl
  have h2 := @validateCitation_hit env now2 c2 p2
    ((validateCitation env now1 c p st).2) (successResult env c p paper resp)
    hhit2
  refine ⟨by rw [h1], by rw [h1], by rw [h2, h1], ?_⟩
  rw [h2]
  show ((validateCitation env now1 c p st).2).oracleCalls = st.oracleCalls + 1
  rw [h1]

/-- Instantiation of C5 at concrete sample data: the second call one
second later, made with a different occurrence of the same key and a
same-text paragraph at a different range, returns the cached success and
leaves the oracle count at one. -/
theorem C5_cache_identity_witness :
    (validateCitation sampleEnvOk 0 sampleCitation sampleParagraph
      emptyState).1 =
      successResult sampleEnvOk sampleCitation sampleParagraph samplePaper
        sampleOkResponse ∧
    (validateCitation sampleEnvOk 1000 sampleCitation2 sampleParagraph2
      (validateCitation sampleEnvOk 0 sampleCitation sampleParagraph
        emptyState).2).2.oracleCalls = emptyState.oracleCalls + 1 :=
  ⟨(C5_cache_identity sampleEnvOk 0 1000 sampleCitation sampleCitation2
      sampleParagraph sampleParagraph2 emptyState samplePaper
      sampleOkResponse rfl rfl rfl rfl rfl rfl (by decide)).1,
   (C5_cache_identity sampleEnvOk 0 1000 sampleCitation sampleCitation2
      sampleParagraph sampleParagraph2 emptyState samplePaper
      sampleOkResponse rfl rfl rfl rfl rfl rfl (by decide)).2.2.2⟩

/-! ### Claim C8: order preservation and batching -/

/-- Claim C8: position i of validateDocument's output holds the result of
the shared per-citation task applied to input citation i (at the state
reached after the first i citations); the bounded variant equals the
sequential run with every slot filled, writing each result at its input
index; the slice loop decomposes the input into batches of at most limit
whose concatenation is the input in order; and 7 citations with limit 3
give exactly batch sizes 3, 3, 1. -/
theorem C8_order_and_batching (env : ValidatorEnv) (now : Nat)
    (cs : List Citation) (ps : List Paragraph) (limit : Nat) (st : VState)
    (hl : 1 ≤ limit) :
    (∀ i, i < cs.length → ∃ c, cs[i]? = some c ∧
      (validateDocument env now cs ps st).1[i]? =
        some (validateWithContext env now ps c
          (validateDocument env now (cs.take i) ps st).2).1) ∧
    validateDocumentWithConcurrencyLimit env now cs ps limit st =
      ((validateDocument env now cs ps st).1.map some,
       (validateDocument env now cs ps st).2) ∧
    (batchesOf limit cs).flatten = cs ∧
    (∀ b ∈ batchesOf limit cs, b.length ≤ limit) ∧
    (cs.length = 7 → limit = 3 →
      (batchesOf limit cs).map List.length = [3, 3, 1]) := by
  refine ⟨?_, vdcl_eq_validateDocument env now cs ps limit st hl, ?_, ?_, ?_⟩
  · intro i hi
    refine ⟨cs[i], List.getElem?_eq_getElem hi, ?_⟩
    have hsplit := validateDocument_append env now (cs.take i) (cs.drop i) ps st
    rw [List.take_append_drop] at hsplit
    rw [hsplit]
    show ((validateDocument env now (cs.take i) ps st).1 ++
      (validateDocument env now (cs.drop i) ps
        (validateDocument env now (cs.take i) ps st).2).1)[i]? = _
    have hlt : (validateDocument env now (cs.take i) ps st).1.length = i := by
      rw [validateDocument_length]
      rw [List.length_take]
      exact min_eq_left (le_of_lt hi)
    rw [List.getElem?_append_right (le_of_eq hlt), hlt, Nat.sub_self]
    have hdrop : cs.drop i = cs[i] :: cs.drop (i + 1) :=
      List.drop_eq_getElem_cons hi
    rw [hdrop]
    show ((validateWithContext env now ps cs[i]
        (validateDocument env now (cs.take i) ps st).2).1 ::
      (validateDocument env now (cs.drop (i + 1)) ps
        (validateWithContext env now ps cs[i]
          (validateDocument env now (cs.take i) ps st).2).2).1)[0]? = _
    exact List.getElem?_cons_zero
  · show (batchesAux limit (cs.length + 1) cs).flatten = cs
    exact batchesAux_flatten limit hl (cs.length + 1) cs (by omega)
  · intro b hb
    exact batchesAux_le limit (cs.length + 1) cs b hb
  · intro h7 h3
    subst h3
    rcases cs with _ | ⟨a, _ | ⟨b, _ | ⟨c, _ | ⟨d, _ | ⟨e, _ | ⟨f2, _ | ⟨g,
      _ | ⟨x, t⟩⟩⟩⟩⟩⟩⟩⟩
    all_goals simp only [List.length_cons, List.length_nil] at h7
    all_goals first
      | rfl
      | omega

/-- Instantiation of C8 at the seven sample citations with limit 3: the
batch sizes are 3, 3, 1 and slot 0 of the output is the task result for
citation 0. -/
theorem C8_order_and_batching_witness :
    (batchesOf 3 sampleSeven).map List.length = [3, 3, 1] ∧
    (∃ c, sampleSeven[0]? = some c ∧
      (validateDocument sampleEnvOk 0 sampleSeven [sampleParagraph]
        emptyState).1[0]? =
        some (validateWithContext sampleEnvOk 0 [sampleParagraph] c
          (validateDocument sampleEnvOk 0 (sampleSeven.take 0)
            [sampleParagraph] emptyState).2).1) :=
  ⟨(C8_order_and_batching sampleEnvOk 0 sampleSeven [sampleParagraph] 3
      emptyState (by decide)).2.2.2.2 (by decide) rfl,
   (C8_order_and_batching sampleEnvOk 0 sampleSeven [sampleParagraph] 3
      emptyState (by decide)).1 0 (by decide)⟩

/-! ### Claim C9: confidence clamp -/

/-- Claim C9: every successful parse yields a confidence in the closed
interval from 0 to 1; the out-of-range inputs 1.5 and -3 clamp to 1 and 0,
the in-range 0.6 comes out as 3/5, and any extracted numeric confidence
already inside the interval is returned unchanged. -/
theorem C9_confidence_clamp :
    (∀ (response : String) (v : ParsedResponse),
      parseValidationResponse response = .ok v →
      0 ≤ v.confidence ∧ v.confidence ≤ 1) ∧
    parsedConfidence (parseValidationResponse resp15) = some 1 ∧
    parsedConfidence (parseValidationResponse respNeg3) = some 0 ∧
    parsedConfidence (parseValidationResponse respMid) = some (3/5) ∧
    (∀ (response : String) (sub : List Char) (parsed : Json) (q : Rat)
        (v : ParsedResponse),
      matchBraces response.toList = some sub →
      jsonParse (String.mk sub) = .ok parsed →
      objLookup parsed "confidence" = some (.num q) →
      0 ≤ q → q ≤ 1 →
      parseValidationResponse response = .ok v →
      v.confidence = q) := by
  refine ⟨?_, by decide, by decide, by decide, ?_⟩
  · intro response v h
    unfold parseValidationResponse at h
    cases hm : matchBraces response.toList with
    | none =>
      rw [hm] at h
      exact Except.noConfusion h
    | some sub =>
      rw [hm] at h
      have h2 : parseResponseSub sub = .ok v := h
      unfold parseResponseSub at h2
      cases hj : jsonParse (String.mk sub) with
      | error e =>
        rw [hj] at h2
        exact Except.noConfusion h2
      | ok parsed =>
        rw [hj] at h2
        have h3 : parseResponseObject parsed = .ok v := h2
        unfold parseResponseObject at h3
        cases hc1 : (!jsTruthy ((objLookup parsed "status").getD .null) ||
            !isNumField (objLookup parsed "confidence") ||
            !jsTruthyOpt (objLookup parsed "explanation")) with
        | true =>
          rw [hc1, if_pos rfl] at h3
          exact Except.noConfusion h3
        | false =>
          rw [hc1, if_neg Bool.false_ne_true] at h3
          cases hc2 : (!statusIsEnum ((objLookup parsed "status").getD .null)) with
          | true =>
            rw [hc2, if_pos rfl] at h3
            exact Except.noConfusion h3
          | false =>
            rw [hc2, if_neg Bool.false_ne_true] at h3
            injection h3 with hv
            subst hv
            constructor
            · exact le_max_left 0 _
            · exact max_le (by norm_num) (min_le_left 1 _)
  · intro response sub parsed q v hm hj hc h0 h1 h
    unfold parseValidationResponse at h
    rw [hm] at h
    have h2 : parseResponseSub sub = .ok v := h
    unfold parseResponseSub at h2
    rw [hj] at h2
    have h3 : parseResponseObject parsed = .ok v := h2
    unfold parseResponseObject at h3
    cases hc1 : (!jsTruthy ((objLookup parsed "status").getD .null) ||
        !isNumField (objLookup parsed "confidence") ||
        !jsTruthyOpt (objLookup parsed "explanation")) with
    | true =>
      rw [hc1, if_pos rfl] at h3
      exact Except.noConfusion h3
    | false =>
      rw [hc1, if_neg Bool.false_ne_true] at h3
      cases hc2 : (!statusIsEnum ((objLookup parsed "status").getD .null)) with
      | true =>
        rw [hc2, if_pos rfl] at h3
        exact Except.noConfusion h3
      | false =>
        rw [hc2, if_neg Bool.false_ne_true] at h3
        injection h3 with hv
        subst hv
        show max 0 (min 1 (numValOr0
          ((objLookup parsed "confidence").getD .null))) = q
        rw [hc]
        show max 0 (min 1 q) = q
        rw [min_eq_right h1, max_eq_right h0]

/-- Instantiation of C9's interval bound at resp15's parser output. -/
theorem C9_confidence_clamp_witness :
    0 ≤ resp15Parsed.confidence ∧ resp15Parsed.confidence ≤ 1 :=
  C9_confidence_clamp.1 resp15 resp15Parsed (by rfl)

/-! ### Claim C10: failures are never cached -/

/-- Claim C10: a result produced from a missing entry, from a failed
oracle call, or from a missing paragraph context is returned without being
stored under the validation cache key (the key stays absent and, for the
orphan case, the state is untouched), so an immediate retry repeats the
full lookup - a second call after an oracle failure invokes the oracle
again, for two invocations in total. -/
theorem C10_failures_not_cached (env : ValidatorEnv) (now : Nat)
    (c : Citation) (p : Paragraph) (st : VState)
    (hfind : st.cache.find? (validationCacheKey c p) = none) :
    (((env.getPaperWithQuotes c.key).paper = none ∨
        jsTruthyStr (env.getPaperWithQuotes c.key).error = true) →
      (validateCitation env now c p st).2.cache.find?
        (validationCacheKey c p) = none ∧
      (validateCitation env now c p st).2.oracleCalls = st.oracleCalls) ∧
    (∀ (paper : Paper) (msg : String),
      (env.getPaperWithQuotes c.key).paper = some paper →
      jsTruthyStr (env.getPaperWithQuotes c.key).error = false →
      env.oracle (validationRequestOf env c p paper) = .error msg →
      (validateCitation env now c p st).2.cache.find?
        (validationCacheKey c p) = none ∧
      (validateCitation env now c p
        (validateCitation env now c p st).2).2.oracleCalls =
        st.oracleCalls + 2) ∧
    (∀ (ps : List Paragraph),
      ps.find? (fun q => paragraphContains q c) = none →
      validateDocument env now [c] ps st = ([orphanResult c], st)) := by
  have hget : st.cache.get now (validationCacheKey c p) = (none, st.cache) :=
    cache_get_of_find_none hfind
  have hmiss : (st.cache.get now (validationCacheKey c p)).1 = none := by
    rw [hget]
  refine ⟨?_, ?_, ?_⟩
  · intro hfail
    rw [validateCitation_missing hmiss hfail]
    constructor
    · show ((st.cache.get now (validationCacheKey c p)).2).find?
        (validationCacheKey c p) = none
      rw [hget]
      exact hfind
    · rfl
  · intro paper msg hp herr hbad
    have h1 := validateCitation_oracle_err hmiss hp herr hbad
    have hst1c : ((validateCitation env now c p st).2).cache = st.cache := by
      rw [h1]
      show (st.cache.get now (validationCacheKey c p)).2 = st.cache
      rw [hget]
    constructor
    · rw [hst1c]
      exact hfind
    · have hmiss2 : (((validateCitation env now c p st).2).cache.get now
          (validationCacheKey c p)).1 = none := by
        rw [hst1c, hget]
      have h2 := validateCitation_oracle_err hmiss2 hp herr hbad
      rw [h2]
      show ((validateCitation env now c p st).2).oracleCalls + 1 =
        st.oracleCalls + 2
      rw [h1]
  · intro ps hfindp
    have hw : validateWithContext env now ps c st = (orphanResult c, st) := by
      unfold validateWithContext
      rw [hfindp]
    show ((validateWithContext env now ps c st).1 ::
      (validateDocument env now [] ps
        (validateWithContext env now ps c st).2).1,
      (validateDocument env now [] ps
        (validateWithContext env now ps c st).2).2) = ([orphanResult c], st)
    rw [hw]
    rfl

/-- Instantiation of C10 at concrete sample data: after a first failed
oracle call the key stays uncached and a retry makes the second
invocation. -/
theorem C10_failures_not_cached_witness :
    (validateCitation sampleEnvThrow 0 sampleCitation sampleParagraph
      emptyState).2.cache.find?
      (validationCacheKey sampleCitation sampleParagraph) = none ∧
    (validateCitation sampleEnvThrow 0 sampleCitation sampleParagraph
      (validateCitation sampleEnvThrow 0 sampleCitation sampleParagraph
        emptyState).2).2.oracleCalls = emptyState.oracleCalls + 2 :=
  (C10_failures_not_cached sampleEnvThrow 0 sampleCitation sampleParagraph
    emptyState rfl).2.1 samplePaper "boom" rfl rfl rfl

end PaperIndex
